import Mathlib

/-!
# Verification of the vice simulation engine core

Shallow embedding of the simulation engine of the `vice` air-traffic-control
training simulator: the `Sim.Update` fixed-timestep loop, the handoff and
point-out auto-resolution performed by `Sim.updateState`, `Sim.SignOff`,
the `SimManager` session registry (`Add`, `SimShouldExit`), the CID
allocator (`pkg/sim/cid.go`), and the aircraft-command dispatcher
(`Dispatcher.RunAircraftCommands` in `pkg/server/dispatcher.go`).

Go `time.Duration` values are modelled as natural numbers of nanoseconds,
`time.Time` values as integers of nanoseconds.  Go maps keyed by strings are
modelled as association lists (`List (String × α)`), with the no-duplicate-key
property carried as a hypothesis where it matters.
-/

namespace Vice

/-! ## Association-list helpers (model of Go `map[string]T` access) -/

/-- Lookup in an association list, the model of a Go map read `m[k]`. -/
def alookup {α : Type} : List (String × α) → String → Option α
  | [], _ => none
  | (k, v) :: rest, key => if k = key then some v else alookup rest key

/-- Pointwise update of the value stored under a key, the model of mutating
the struct a Go map value points at. -/
def aupdate {α : Type} (f : α → α) (key : String) : List (String × α) → List (String × α)
  | [] => []
  | (k, v) :: rest =>
      if k = key then (k, f v) :: aupdate f key rest else (k, v) :: aupdate f key rest

/-- The keys of an association list. -/
def akeys {α : Type} (l : List (String × α)) : List String := l.map Prod.fst

/-! ## `Sim.Update` time bookkeeping (claim C1)

`pkg/sim/sim.go`, `func (s *Sim) Update()`.  The wall-clock elapsed time
scaled by `SimRate` (`time.Duration(s.State.SimRate*float32(elapsed))`) is
taken as the input of each call; the floating-point scaling itself is outside
the scope of the claim, which is about the whole-second stepping and slop
accounting that follow it.  `nsPerSecond` is Go's `time.Second`. -/

def nsPerSecond : Nat := 1000000000

/-- The fields of `Sim`/`Sim.State` that `Update`'s time bookkeeping touches.
`simTime` is `State.SimTime`, `updateTimeSlop` is `Sim.updateTimeSlop`,
`paused` is `State.Paused` and `primaryActive` is
`s.isActiveHumanController(s.State.PrimaryController)`. -/
structure UpdState where
  simTime : Nat
  updateTimeSlop : Nat
  paused : Bool
  primaryActive : Bool
deriving DecidableEq, Repr

/-- One call of `Sim.Update` (`sim.go:520-564`), given the already-scaled
wall-clock elapsed time in nanoseconds.  `elapsed.Truncate(time.Second)` on a
non-negative duration is `elapsed / nsPerSecond` whole seconds, the loop adds
`time.Second` to `SimTime` once per step, and the new slop is the sub-second
remainder. -/
def simUpdate (s : UpdState) (scaledElapsed : Nat) : UpdState :=
  if s.paused then s
  else if !s.primaryActive then s
  else
    let elapsed := scaledElapsed + s.updateTimeSlop
    let ns := elapsed / nsPerSecond
    { s with simTime := s.simTime + ns * nsPerSecond,
             updateTimeSlop := elapsed % nsPerSecond }

/-! ## CIDAllocator (`pkg/sim/cid.go`, claims C8 and C10)

Go maps `map[string]interface{}` holding code sets are modelled as
`List String` without duplicate elements (the no-duplicate property is part
of the reachable-state invariant); `delete(g, cid)` is `List.erase` and map
insertion is `List.cons`.  `rand.Intn(len(g))` is modelled by taking an
arbitrary natural number `n` and using `n % g.length` as the chosen index. -/

def preferredAlphas : List Char := ['P', 'K', 'N', 'Y', 'T', 'V', 'F', 'R', 'C', 'D', 'E', 'W', 'A']

def nonPreferredAlphas : List Char := ['M', 'X', 'L', 'J', 'U', 'B', 'G', 'Q', 'S', 'H', 'Z']

def cidDigits : List Char := ['0', '1', '2', '3', '4', '5', '6', '7', '8', '9']

/-- `string([]rune{r1, r2, r3})` -/
def mkCID (a b c : Char) : String := String.mk [a, b, c]

def cidGroup0 : List String :=
  cidDigits.flatMap fun a => cidDigits.flatMap fun b => cidDigits.map fun c => mkCID a b c

def cidGroup1 : List String :=
  cidDigits.flatMap fun a => cidDigits.flatMap fun b => preferredAlphas.map fun l => mkCID a b l

def cidGroup2 : List String :=
  cidDigits.flatMap fun a => preferredAlphas.flatMap fun l1 => preferredAlphas.map fun l2 => mkCID a l1 l2

def cidGroup3 : List String :=
  cidDigits.flatMap fun a => preferredAlphas.flatMap fun l => cidDigits.map fun b => mkCID a l b

def cidGroup4 : List String :=
  cidDigits.flatMap fun a => cidDigits.flatMap fun b => nonPreferredAlphas.map fun l => mkCID a b l

def cidGroup5 : List String :=
  cidDigits.flatMap fun d =>
    (nonPreferredAlphas.flatMap fun a1 =>
      (nonPreferredAlphas.map fun a2 => mkCID d a1 a2)
        ++ (preferredAlphas.map fun a2 => mkCID d a1 a2))
    ++ (preferredAlphas.flatMap fun a1 => nonPreferredAlphas.map fun a2 => mkCID d a1 a2)

def cidGroup6 : List String :=
  cidDigits.flatMap fun a => nonPreferredAlphas.flatMap fun l => cidDigits.map fun b => mkCID a l b

/-- The `groups` slice built by `generateCIDGroups`. -/
def generateCIDGroups : List (List String) :=
  [cidGroup0, cidGroup1, cidGroup2, cidGroup3, cidGroup4, cidGroup5, cidGroup6]

/-- The `cidMap` built by `generateCIDGroups`: each `add(idx, ...)` call sets
`cidMap[s] = idx`, so a later group overwrites an earlier one (the groups are
in fact pairwise disjoint, so the order does not matter). -/
def cidGroupMap (cid : String) : Option Nat :=
  if cid ∈ cidGroup6 then some 6
  else if cid ∈ cidGroup5 then some 5
  else if cid ∈ cidGroup4 then some 4
  else if cid ∈ cidGroup3 then some 3
  else if cid ∈ cidGroup2 then some 2
  else if cid ∈ cidGroup1 then some 1
  else if cid ∈ cidGroup0 then some 0
  else none

structure CIDAllocator where
  groups : List (List String)
  cidGroup : String → Option Nat
  groupIndex : Nat
  allocated : List String

def newCIDAllocator : CIDAllocator :=
  { groups := generateCIDGroups, cidGroup := cidGroupMap, groupIndex := 0, allocated := [] }

/-- `func (c *CIDAllocator) Allocate() (string, error)`.  The `while` loop
advances `groupIndex` past empty groups; on success it removes the randomly
chosen code from its group and records it as allocated; when the loop runs
off the end of `groups` it reports failure (`no more CIDs available`),
leaving the advanced `groupIndex` behind. -/
def allocate (c : CIDAllocator) (n : Nat) : Option String × CIDAllocator :=
  if h : c.groupIndex < c.groups.length then
    let g := c.groups.get ⟨c.groupIndex, h⟩
    if hg : g.length = 0 then
      allocate { c with groupIndex := c.groupIndex + 1 } n
    else
      let cid := g.get ⟨n % g.length, Nat.mod_lt _ (Nat.pos_of_ne_zero hg)⟩
      (some cid,
        { c with groups := c.groups.set c.groupIndex (g.erase cid),
                 allocated := cid :: c.allocated })
  else (none, c)
termination_by c.groups.length - c.groupIndex
decreasing_by simp_wf; omega

/-- `func (c *CIDAllocator) Release(cid string)`. -/
def release (c : CIDAllocator) (cid : String) : CIDAllocator :=
  if cid ∈ c.allocated then
    let c1 := { c with allocated := c.allocated.erase cid }
    match c.cidGroup cid with
    | none => c1
    | some idx =>
        { c1 with groups := c1.groups.set idx (cid :: c1.groups.getD idx []),
                  groupIndex := if idx < c1.groupIndex then idx else c1.groupIndex }
  else c

/-- The states reachable from `NewCIDAllocator` by any interleaving of
`Allocate` and `Release` calls. -/
inductive CIDReachable : CIDAllocator → Prop where
  | init : CIDReachable newCIDAllocator
  | alloc (c : CIDAllocator) (n : Nat) : CIDReachable c → CIDReachable (allocate c n).2
  | rel (c : CIDAllocator) (cid : String) : CIDReachable c → CIDReachable (release c cid)

/-! ### Well-formedness of the generated code space

The three character classes used by `generateCIDGroups` are pairwise
disjoint, which makes the seven groups pairwise disjoint and each group
duplicate-free — the counterpart of the Go groups being `map`s. -/

/-- The character-class signature of a code: 0 for a digit, 1 for a
preferred letter, 2 for a non-preferred letter. -/
def cidClass (c : Char) : Nat :=
  if c ∈ cidDigits then 0 else if c ∈ preferredAlphas then 1 else 2

def cidShape (s : String) : List Nat := s.data.map cidClass

/-- The shapes that can occur in each group of `generateCIDGroups` (padded
to three entries to keep case analysis uniform). -/
def shapesOf : Nat → List (List Nat)
  | 0 => [[0, 0, 0], [0, 0, 0], [0, 0, 0]]
  | 1 => [[0, 0, 1], [0, 0, 1], [0, 0, 1]]
  | 2 => [[0, 1, 1], [0, 1, 1], [0, 1, 1]]
  | 3 => [[0, 1, 0], [0, 1, 0], [0, 1, 0]]
  | 4 => [[0, 0, 2], [0, 0, 2], [0, 0, 2]]
  | 5 => [[0, 2, 2], [0, 2, 1], [0, 1, 2]]
  | 6 => [[0, 2, 0], [0, 2, 0], [0, 2, 0]]
  | _ => []

/-! ### Allocator invariant -/

/-- Invariant of every allocator state reachable from `NewCIDAllocator`:
there are seven partitions, the partitions before `groupIndex` are drained,
neither the free pool nor the allocated set holds duplicates, and no code is
simultaneously free and allocated. -/
structure CIDInv (c : CIDAllocator) : Prop where
  len7 : c.groups.length = 7
  prefixEmpty : ∀ i (hi : i < c.groups.length), i < c.groupIndex → c.groups.get ⟨i, hi⟩ = []
  nodupA : c.allocated.Nodup
  nodupG : ∀ i (hi : i < c.groups.length), (c.groups.get ⟨i, hi⟩).Nodup
  pairG : ∀ i j (hi : i < c.groups.length) (hj : j < c.groups.length), i ≠ j →
            ∀ x ∈ c.groups.get ⟨i, hi⟩, x ∉ c.groups.get ⟨j, hj⟩
  disjAG : ∀ x ∈ c.allocated, ∀ i (hi : i < c.groups.length), x ∉ c.groups.get ⟨i, hi⟩
  idxBound : ∀ cid i, c.cidGroup cid = some i → i < c.groups.length

/-! ## Handoff and point-out auto-resolution (`Sim.updateState`, claims C2 and C9)

The model covers the two resolution loops at the top of `updateState`
(`sim.go:567-624`) and the fields they read or write.  `time.Time` values
are integers of nanoseconds; `now.After(t)` is strict `t < now`.  The
`FacilityComputers`/`AutomatedAcceptHandoff` propagation mutates only
external automation state and has its errors swallowed, so it does not
appear.  Go's `map` iteration with in-loop `delete` is modelled by folding
over the entry list: a `continue` keeps the entry, every other path drops
it (handoffs) or keeps it only outside the `delete` branch (point-outs). -/

structure AircraftHO where
  trackingController : String
  handoffTrackController : String
deriving DecidableEq, Repr

structure Handoff where
  autoAcceptTime : Int
  receivingFacility : String
deriving DecidableEq, Repr

structure PointOut where
  fromController : String
  toController : String
  acceptTime : Int
deriving DecidableEq, Repr

inductive EventType where
  | acceptedHandoff
  | acknowledgedPointOut
deriving DecidableEq, Repr

structure Event where
  type : EventType
  fromController : String
  toController : String
  callsign : String
deriving DecidableEq, Repr

structure SimHO where
  simTime : Int
  prespawn : Bool
  humanControllers : List String
  aircraft : List (String × AircraftHO)
  handoffs : List (String × Handoff)
  pointOuts : List (String × PointOut)
  events : List Event
deriving DecidableEq, Repr

/-- `s.isActiveHumanController(tcp)`: membership in `s.humanControllers`. -/
def isActiveHumanController (s : SimHO) (tcp : String) : Bool :=
  s.humanControllers.contains tcp

/-- One iteration of the handoff loop of `updateState` for entry
`(callsign, ho)`: an entry that is not yet due (outside prespawn) is kept
(`continue`); otherwise, when the aircraft exists, still has a pending
handoff and the receiving controller is not an active human, the handoff is
auto-accepted (event posted with the pre-transfer controllers, then the
track reassigned and the pending field cleared); in every non-`continue`
case the entry is dropped (`delete(s.Handoffs, callsign)`). -/
def handoffStep (s : SimHO) (callsign : String) (ho : Handoff) : SimHO :=
  if ¬(ho.autoAcceptTime < s.simTime) ∧ ¬(s.prespawn = true) then
    { s with handoffs := s.handoffs ++ [(callsign, ho)] }
  else
    match alookup s.aircraft callsign with
    | some ac =>
        if ac.handoffTrackController ≠ "" ∧
            ¬(isActiveHumanController s ac.handoffTrackController = true) then
          { s with
              events := s.events ++
                [⟨EventType.acceptedHandoff, ac.trackingController,
                  ac.handoffTrackController, callsign⟩],
              aircraft := aupdate (fun a =>
                  { a with trackingController := a.handoffTrackController,
                           handoffTrackController := "" }) callsign s.aircraft }
        else s
    | none => s

def handoffLoop (s : SimHO) : List (String × Handoff) → SimHO
  | [] => s
  | (cs, ho) :: rest => handoffLoop (handoffStep s cs ho) rest

/-- The handoff loop of `updateState`, ranging over all entries of
`s.Handoffs` and rebuilding the map from the entries that are kept. -/
def runHandoffs (s : SimHO) : SimHO := handoffLoop { s with handoffs := [] } s.handoffs

/-- One iteration of the point-out loop of `updateState` for entry
`(callsign, po)`: not-yet-due entries are kept; a due entry whose aircraft
exists and whose recipient is not an active human is acknowledged (from/to
swapped) and deleted; a due entry whose aircraft is gone or whose recipient
is human is also kept (the `delete` sits inside the inner `if`). -/
def pointOutStep (s : SimHO) (callsign : String) (po : PointOut) : SimHO :=
  if ¬(po.acceptTime < s.simTime) then
    { s with pointOuts := s.pointOuts ++ [(callsign, po)] }
  else if (alookup s.aircraft callsign).isSome ∧
      ¬(isActiveHumanController s po.toController = true) then
    { s with events := s.events ++
        [⟨EventType.acknowledgedPointOut, po.toController, po.fromController, callsign⟩] }
  else
    { s with pointOuts := s.pointOuts ++ [(callsign, po)] }

def pointOutLoop (s : SimHO) : List (String × PointOut) → SimHO
  | [] => s
  | (cs, po) :: rest => pointOutLoop (pointOutStep s cs po) rest

/-- The point-out loop of `updateState`. -/
def runPointOuts (s : SimHO) : SimHO := pointOutLoop { s with pointOuts := [] } s.pointOuts

/-! ## `Sim.SignOff` (claim C5)

`sim.go:237-270`.  The per-aircraft call `ac.HandleControllerDisconnect(tcp,
s.State.PrimaryController)` lives in `pkg/aviation`, which is not part of the
sources; it is modelled from the spec below.  The event posting and logging
touch no field examined by the claim. -/

inductive SimErr where
  | noController
  | duplicateSimName
deriving DecidableEq, Repr

structure AircraftSO where
  trackingController : String
deriving DecidableEq, Repr

structure SimSO where
  humanControllers : List String
  aircraft : List (String × AircraftSO)
  primaryController : String
  launchController : String
deriving DecidableEq, Repr

/-- Modelled from the spec: `av.Aircraft.HandleControllerDisconnect` is not
among the sources; per the spec, on a controller's sign-off "every aircraft
currently tracked by that position is handed to the scenario's
fallback/primary controller". -/
def handleControllerDisconnect (ac : AircraftSO) (tcp primary : String) : AircraftSO :=
  if ac.trackingController = tcp then { ac with trackingController := primary } else ac

/-- `func (s *Sim) SignOff(tcp string) error`: fails with `av.ErrNoController`
when `tcp` is not a signed-on human controller; otherwise disconnects `tcp`
from every aircraft, releases launch control if `tcp` held it, and removes
`tcp` from the controller rosters. -/
def signOff (s : SimSO) (tcp : String) : Except SimErr SimSO :=
  if ¬(s.humanControllers.contains tcp = true) then
    Except.error SimErr.noController
  else
    Except.ok
      { humanControllers := s.humanControllers.filter (fun c => ¬(c = tcp)),
        aircraft := s.aircraft.map
          (fun p => (p.1, handleControllerDisconnect p.2 tcp s.primaryController)),
        primaryController := s.primaryController,
        launchController := if tcp = s.launchController then "" else s.launchController }

/-- The number of aircraft whose track is held by `tcp`. -/
def trackedCount (s : SimSO) (tcp : String) : Nat :=
  s.aircraft.countP (fun p => p.2.trackingController = tcp)

/-! ## SimManager session registry (claims C6 and C7)

`SimManager.Add` and `SimManager.SimShouldExit` (`pkg/server`).  The
registry `simSessions` is an association list from session names to
sessions; the session payload is abstract.  `Add` registers the session
before signing the initial controller on, so the sign-on outcome is taken
as an input. -/

/-- Go map insertion `m[k] = v`. -/
def ainsert {α : Type} (l : List (String × α)) (key : String) (v : α) :
    List (String × α) :=
  if (alookup l key).isSome then aupdate (fun _ => v) key l else l ++ [(key, v)]

/-- `func (sm *SimManager) Add(session, ...)`, restricted to the registry:
a non-empty name already present fails with `ErrDuplicateSimName` before
anything is mutated ("Empty sim name is just a local sim, so no problem
with replacing it"); otherwise the session is stored under its name and the
initial controller sign-on result is propagated. -/
def simManagerAdd {σ τ : Type} (reg : List (String × σ)) (name : String) (sess : σ)
    (signOnResult : Except SimErr τ) : List (String × σ) × Except SimErr τ :=
  if (alookup reg name).isSome ∧ name ≠ "" then
    (reg, Except.error SimErr.duplicateSimName)
  else
    let reg' := ainsert reg name sess
    match signOnResult with
    | Except.error e => (reg', Except.error e)
    | Except.ok t => (reg', Except.ok t)

/-- `const simIdleLimit = 4 * time.Hour`, in nanoseconds. -/
def simIdleLimit : Nat := 4 * 60 * 60 * 1000000000

/-- The per-session state `SimShouldExit` reads: `sim.IdleTime()`. -/
structure SimSession where
  idleTime : Nat
deriving DecidableEq, Repr

/-- `func (sm *SimManager) SimShouldExit(sim *sim.Sim) bool`: false when the
session has been idle less than 4 hours, otherwise true iff more than 10 of
the registry's sessions (the session itself included) are idle at least
4 hours. -/
def simShouldExit (sessions : List SimSession) (s : SimSession) : Bool :=
  if s.idleTime < simIdleLimit then false
  else 10 < sessions.countP (fun t => simIdleLimit ≤ t.idleTime)

/-! ## `Dispatcher.RunAircraftCommands` (`pkg/server/dispatcher.go`, claims C3 and C4)

Command tokens are `List Char` (the commands are ASCII, so Go's byte
indexing agrees with character indexing).  The engine calls
(`s.AssignAltitude`, `s.AssignHeading`, ...) live in `pkg/sim` outside the
dispatcher; they are a record of operations over an abstract engine state,
each returning `Except` like the Go `error` returns.  The controller token
and callsign are fixed throughout one call and are omitted from the
operation signatures.  `strconv.Atoi`, `strings.Fields`, `strings.Split`
and `util.IsAllNumbers` (the helper is not under the sources; it reports
whether every character is a decimal digit) are modelled below. -/

inductive CmdErr where
  | syntaxErr
  | atoiErr
  | parseErr
  | engineErr (msg : String)
deriving DecidableEq, Repr

instance {ε α : Type} [DecidableEq ε] [DecidableEq α] : DecidableEq (Except ε α) :=
  fun a b =>
    match a, b with
    | Except.ok x, Except.ok y =>
        if h : x = y then isTrue (by rw [h])
        else isFalse (by intro hc; cases hc; exact h rfl)
    | Except.error x, Except.error y =>
        if h : x = y then isTrue (by rw [h])
        else isFalse (by intro hc; cases hc; exact h rfl)
    | Except.ok _, Except.error _ => isFalse (by intro hc; cases hc)
    | Except.error _, Except.ok _ => isFalse (by intro hc; cases hc)

inductive TurnMethod where
  | closest
  | left
  | right
deriving DecidableEq, Repr

structure HeadingArgs where
  heading : Int
  turn : TurnMethod
  leftDegrees : Int
  rightDegrees : Int
  present : Bool
deriving DecidableEq, Repr

inductive TransponderMode where
  | standby
  | altitude
  | modeOn
deriving DecidableEq, Repr

/-- `av.AltitudeRestriction.Range`; the two float32 bounds carry whole-foot
values in this code path, modelled exactly as integers. -/
structure AltitudeRestriction where
  range0 : Int
  range1 : Int
deriving DecidableEq, Repr

structure EngineOps (σ : Type) where
  cancelApproachClearance : σ → Except CmdErr σ
  climbViaSID : σ → Except CmdErr σ
  clearedApproach : σ → List Char → Bool → Except CmdErr σ
  crossFixAt : σ → List Char → Option AltitudeRestriction → Int → Except CmdErr σ
  atFixCleared : σ → List Char → List Char → Except CmdErr σ
  assignAltitude : σ → Int → Bool → Except CmdErr σ
  descendViaSTAR : σ → Except CmdErr σ
  departFixDirect : σ → List Char → List Char → Except CmdErr σ
  departFixHeading : σ → List Char → Int → Except CmdErr σ
  directFix : σ → List Char → Except CmdErr σ
  expediteDescent : σ → Except CmdErr σ
  expediteClimb : σ → Except CmdErr σ
  expectApproach : σ → List Char → Except CmdErr σ
  handoffControl : σ → Except CmdErr σ
  assignHeading : σ → HeadingArgs → Except CmdErr σ
  interceptLocalizer : σ → Except CmdErr σ
  identify : σ → Except CmdErr σ
  assignSpeed : σ → Int → Bool → Except CmdErr σ
  maintainSlowestPractical : σ → Except CmdErr σ
  maintainMaximumForward : σ → Except CmdErr σ
  saySpeed : σ → Except CmdErr σ
  changeTransponderMode : σ → TransponderMode → Except CmdErr σ
  changeSquawk : σ → Nat → Except CmdErr σ
  sayHeading : σ → Except CmdErr σ
  sayAltitude : σ → Except CmdErr σ
  contactTower : σ → Except CmdErr σ
  deleteAircraft : σ → σ
  locate : List Char → Bool
  parseAltitudeRestriction : List Char → Except CmdErr AltitudeRestriction
  parseSquawk : List Char → Except CmdErr Nat

/-- Model of `util.IsAllNumbers` (helper not under the sources): every
character is a decimal digit. -/
def isAllNumbers (cs : List Char) : Bool := cs.all Char.isDigit

def digitsVal (cs : List Char) : Nat :=
  cs.foldl (fun a c => 10 * a + (c.toNat - '0'.toNat)) 0

/-- Model of `strconv.Atoi`: optional sign followed by a non-empty digit
string (overflow aside, which cannot occur for command arguments). -/
def atoi (cs : List Char) : Option Int :=
  match cs with
  | [] => none
  | c :: rest =>
      if c = '+' then
        if rest ≠ [] ∧ rest.all Char.isDigit then some (digitsVal rest) else none
      else if c = '-' then
        if rest ≠ [] ∧ rest.all Char.isDigit then some (-(digitsVal rest : Int)) else none
      else if (c :: rest).all Char.isDigit then some (digitsVal (c :: rest)) else none

/-- `strings.Split(s, "/")`. -/
def splitOnSlash : List Char → List (List Char)
  | [] => [[]]
  | c :: rest =>
      match splitOnSlash rest with
      | [] => [[]]
      | g :: gs => if c = '/' then [] :: g :: gs else (c :: g) :: gs

/-- `len(command) > 1 && command[1] >= '0' && command[1] <= '9'`. -/
def secondIsDigit : List Char → Bool
  | _ :: c1 :: _ => '0' ≤ c1 && c1 ≤ '9'
  | _ => false

/-- The `for _, cmd := range components[1:]` loop of the
cross-fix-at-altitude/speed command: an `A` clause parses an altitude
restriction whose range is scaled from hundreds of feet to feet, an `S`
clause parses a speed, anything else is a syntax error. -/
def procCrossClauses {σ : Type} (ops : EngineOps σ) :
    List (List Char) → Option AltitudeRestriction → Int →
      Except CmdErr (Option AltitudeRestriction × Int)
  | [], ar, sp => Except.ok (ar, sp)
  | cl :: rest, ar, sp =>
      match cl with
      | [] => Except.error CmdErr.syntaxErr
      | c :: cr =>
          if c = 'A' ∧ cr ≠ [] then
            match ops.parseAltitudeRestriction cr with
            | Except.error e => Except.error e
            | Except.ok a =>
                procCrossClauses ops rest (some ⟨100 * a.range0, 100 * a.range1⟩) sp
          else if c = 'S' then
            match atoi cr with
            | none => Except.error CmdErr.atoiErr
            | some k => procCrossClauses ops rest ar k
          else Except.error CmdErr.syntaxErr

/-- One command token of `RunAircraftCommands`
(`dispatcher.go:553-977`): the full per-token `switch`. -/
def execCmd {σ : Type} (ops : EngineOps σ) (st : σ) (cmd : List Char) : Except CmdErr σ :=
  match cmd with
  | [] => Except.error CmdErr.syntaxErr
  | c0 :: rest =>
      if c0 = 'A' ∨ c0 = 'C' then
        if cmd = ['C', 'A', 'C'] then ops.cancelApproachClearance st
        else if cmd = ['C', 'V', 'S'] then ops.climbViaSID st
        else if cmd.length > 4 ∧ cmd.take 3 = ['C', 'S', 'I']
            ∧ ¬(isAllNumbers (cmd.drop 3) = true) then
          ops.clearedApproach st (cmd.drop 3) true
        else if c0 = 'C' ∧ cmd.length > 2 ∧ ¬(isAllNumbers rest = true) then
          match splitOnSlash cmd with
          | [] => Except.error CmdErr.syntaxErr
          | comp0 :: comps =>
              if comps.length > 0 then
                match procCrossClauses ops comps none 0 with
                | Except.error e => Except.error e
                | Except.ok (ar, speed) => ops.crossFixAt st (comp0.drop 1) ar speed
              else ops.clearedApproach st rest false
        else
          if c0 = 'A' then
            match splitOnSlash cmd with
            | [comp0, comp1] =>
                if comp1.head? = some 'C' then
                  ops.atFixCleared st ((comp0.drop 1).map Char.toUpper) (comp1.drop 1)
                else Except.error CmdErr.syntaxErr
            | _ => Except.error CmdErr.syntaxErr
          else
            match atoi rest with
            | none => Except.error CmdErr.atoiErr
            | some alt => ops.assignAltitude st (100 * alt) false
      else if c0 = 'D' then
        if cmd = ['D', 'V', 'S'] then ops.descendViaSTAR st
        else if (splitOnSlash cmd).length > 1 ∧ ((splitOnSlash cmd).getD 1 []).length > 1 then
          match ((splitOnSlash cmd).getD 1 []).head? with
          | some 'D' =>
              ops.departFixDirect st (((splitOnSlash cmd).getD 0 []).drop 1)
                (((splitOnSlash cmd).getD 1 []).drop 1)
          | some 'H' =>
              match atoi (((splitOnSlash cmd).getD 1 []).drop 1) with
              | none => Except.error CmdErr.atoiErr
              | some hdg =>
                  ops.departFixHeading st (((splitOnSlash cmd).getD 0 []).drop 1) hdg
          | _ => Except.error CmdErr.syntaxErr
        else if secondIsDigit cmd = true then
          match atoi rest with
          | none => Except.error CmdErr.atoiErr
          | some alt => ops.assignAltitude st (100 * alt) false
        else if ops.locate rest = true then
          ops.directFix st rest
        else Except.error CmdErr.syntaxErr
      else if c0 = 'E' then
        if cmd = ['E', 'D'] then ops.expediteDescent st
        else if cmd = ['E', 'C'] then ops.expediteClimb st
        else if cmd.length > 1 then ops.expectApproach st rest
        else Except.error CmdErr.syntaxErr
      else if c0 = 'F' then
        if cmd = ['F', 'C'] then ops.handoffControl st
        else Except.error CmdErr.syntaxErr
      else if c0 = 'H' then
        if cmd.length = 1 then ops.assignHeading st ⟨0, TurnMethod.closest, 0, 0, true⟩
        else
          match atoi rest with
          | none => Except.error CmdErr.atoiErr
          | some hdg => ops.assignHeading st ⟨hdg, TurnMethod.closest, 0, 0, false⟩
      else if c0 = 'I' then
        if cmd.length = 1 then ops.interceptLocalizer st
        else if cmd = ['I', 'D'] then ops.identify st
        else Except.error CmdErr.syntaxErr
      else if c0 = 'L' then
        if cmd.length > 2 ∧ cmd.getLast? = some 'D' then
          match atoi rest.dropLast with
          | none => Except.error CmdErr.atoiErr
          | some deg => ops.assignHeading st ⟨0, TurnMethod.closest, deg, 0, false⟩
        else
          match atoi rest with
          | none => Except.error CmdErr.atoiErr
          | some hdg => ops.assignHeading st ⟨hdg, TurnMethod.left, 0, 0, false⟩
      else if c0 = 'R' then
        if cmd.length > 2 ∧ cmd.getLast? = some 'D' then
          match atoi rest.dropLast with
          | none => Except.error CmdErr.atoiErr
          | some deg => ops.assignHeading st ⟨0, TurnMethod.closest, 0, deg, false⟩
        else
          match atoi rest with
          | none => Except.error CmdErr.atoiErr
          | some hdg => ops.assignHeading st ⟨hdg, TurnMethod.right, 0, 0, false⟩
      else if c0 = 'S' then
        if cmd.length = 1 then ops.assignSpeed st 0 false
        else if cmd = ['S', 'M', 'I', 'N'] then ops.maintainSlowestPractical st
        else if cmd = ['S', 'M', 'A', 'X'] then ops.maintainMaximumForward st
        else if cmd = ['S', 'S'] then ops.saySpeed st
        else if cmd = ['S', 'Q', 'S'] then
          ops.changeTransponderMode st TransponderMode.standby
        else if cmd = ['S', 'Q', 'A'] then
          ops.changeTransponderMode st TransponderMode.altitude
        else if cmd = ['S', 'Q', 'O', 'N'] then
          ops.changeTransponderMode st TransponderMode.modeOn
        else if cmd.length = 6 ∧ cmd.take 2 = ['S', 'Q'] then
          match ops.parseSquawk (cmd.drop 2) with
          | Except.error e => Except.error e
          | Except.ok sq => ops.changeSquawk st sq
        else if cmd = ['S', 'H'] then ops.sayHeading st
        else if cmd = ['S', 'A'] then ops.sayAltitude st
        else
          match atoi rest with
          | none => Except.error CmdErr.atoiErr
          | some kts => ops.assignSpeed st kts false
      else if c0 = 'T' then
        if cmd = ['T', 'O'] then ops.contactTower st
        else if cmd.length > 2 then
          -- "turn N degrees left/right" is tried first; otherwise (also when
          -- the leading digits fail to parse) control falls through to the
          -- `switch command[:2]` below, written out in both fall-through arms.
          match atoi rest.dropLast with
          | some deg =>
              if cmd.getLast? = some 'L' then
                ops.assignHeading st ⟨0, TurnMethod.closest, deg, 0, false⟩
              else if cmd.getLast? = some 'R' then
                ops.assignHeading st ⟨0, TurnMethod.closest, 0, deg, false⟩
              else if cmd.take 2 = ['T', 'S'] then
                match atoi (cmd.drop 2) with
                | none => Except.error CmdErr.atoiErr
                | some kts => ops.assignSpeed st kts true
              else if cmd.take 2 = ['T', 'A'] ∨ cmd.take 2 = ['T', 'C']
                  ∨ cmd.take 2 = ['T', 'D'] then
                match atoi (cmd.drop 2) with
                | none => Except.error CmdErr.atoiErr
                | some alt => ops.assignAltitude st (100 * alt) true
              else Except.error CmdErr.syntaxErr
          | none =>
              if cmd.take 2 = ['T', 'S'] then
                match atoi (cmd.drop 2) with
                | none => Except.error CmdErr.atoiErr
                | some kts => ops.assignSpeed st kts true
              else if cmd.take 2 = ['T', 'A'] ∨ cmd.take 2 = ['T', 'C']
                  ∨ cmd.take 2 = ['T', 'D'] then
                match atoi (cmd.drop 2) with
                | none => Except.error CmdErr.atoiErr
                | some alt => ops.assignAltitude st (100 * alt) true
              else Except.error CmdErr.syntaxErr
        else Except.error CmdErr.syntaxErr
      else if c0 = 'X' then
        Except.ok (ops.deleteAircraft st)
      else Except.error CmdErr.syntaxErr

/-- `AircraftCommandsResult`: the error message and the unexecuted suffix,
reported through the result struct rather than the RPC error. -/
structure AircraftCommandsResult where
  errorMessage : Option CmdErr
  remainingInput : String
deriving DecidableEq, Repr

/-- `strings.Join(commands[i:], " ")`. -/
def joinTokens (ts : List (List Char)) : String :=
  String.intercalate " " (ts.map fun t => String.mk t)

/-- The `for i, command := range commands` loop: each token is executed in
order; the first failure stores the error and the unconsumed suffix in the
result and stops, leaving the effects of the earlier tokens in place. -/
def runCmdList {σ : Type} (ops : EngineOps σ) (st : σ) :
    List (List Char) → σ × AircraftCommandsResult
  | [] => (st, ⟨none, ""⟩)
  | t :: ts =>
      match execCmd ops st t with
      | Except.ok st' => runCmdList ops st' ts
      | Except.error e => (st, ⟨some e, joinTokens (t :: ts)⟩)

/-- Split on whitespace runs (`strings.Fields`). -/
def splitWhitespace : List Char → List (List Char)
  | [] => [[]]
  | c :: rest =>
      match splitWhitespace rest with
      | [] => [[]]
      | g :: gs => if c.isWhitespace then [] :: g :: gs else (c :: g) :: gs

def fieldsOf (s : String) : List (List Char) :=
  (splitWhitespace s.toList).filter (fun t => ¬(t = []))

/-- `Dispatcher.RunAircraftCommands`, for a resolved controller and
callsign: split the command string into whitespace-delimited tokens and run
them in order. -/
def runAircraftCommands {σ : Type} (ops : EngineOps σ) (st : σ) (cmds : String) :
    σ × AircraftCommandsResult :=
  runCmdList ops st (fieldsOf cmds)

/-- Reference fold: execute a token list, stopping at the first error. -/
def execAll {σ : Type} (ops : EngineOps σ) (st : σ) :
    List (List Char) → Except CmdErr σ
  | [] => Except.ok st
  | t :: ts =>
      match execCmd ops st t with
      | Except.ok st' => execAll ops st' ts
      | Except.error e => Except.error e

/-- A record of one engine call with the arguments it received, for the
observational engine used in the concrete test cases. -/
inductive ECall where
  | cancelApproachClearance
  | climbViaSID
  | clearedApproach (approach : List Char) (straightIn : Bool)
  | crossFixAt (fix : List Char) (ar : Option AltitudeRestriction) (speed : Int)
  | atFixCleared (fix approach : List Char)
  | assignAltitude (alt : Int) (afterSpeed : Bool)
  | descendViaSTAR
  | departFixDirect (fix1 fix2 : List Char)
  | departFixHeading (fix : List Char) (hdg : Int)
  | directFix (fix : List Char)
  | expediteDescent
  | expediteClimb
  | expectApproach (ap : List Char)
  | handoffControl
  | assignHeading (args : HeadingArgs)
  | interceptLocalizer
  | identify
  | assignSpeed (kts : Int) (afterAltitude : Bool)
  | maintainSlowestPractical
  | maintainMaximumForward
  | saySpeed
  | changeTransponderMode (m : TransponderMode)
  | changeSquawk (sq : Nat)
  | sayHeading
  | sayAltitude
  | contactTower
  | deleteAircraft
deriving DecidableEq, Repr

/-- An engine whose state is the list of engine calls made so far; every
operation succeeds and records itself. -/
def traceOps (parseAR : List Char → Except CmdErr AltitudeRestriction)
    (parseSq : List Char → Except CmdErr Nat) (loc : List Char → Bool) :
    EngineOps (List ECall) :=
  { cancelApproachClearance := fun st => Except.ok (st ++ [ECall.cancelApproachClearance]),
    climbViaSID := fun st => Except.ok (st ++ [ECall.climbViaSID]),
    clearedApproach := fun st ap si => Except.ok (st ++ [ECall.clearedApproach ap si]),
    crossFixAt := fun st fx ar sp => Except.ok (st ++ [ECall.crossFixAt fx ar sp]),
    atFixCleared := fun st fx ap => Except.ok (st ++ [ECall.atFixCleared fx ap]),
    assignAltitude := fun st alt asp => Except.ok (st ++ [ECall.assignAltitude alt asp]),
    descendViaSTAR := fun st => Except.ok (st ++ [ECall.descendViaSTAR]),
    departFixDirect := fun st f1 f2 => Except.ok (st ++ [ECall.departFixDirect f1 f2]),
    departFixHeading := fun st fx h => Except.ok (st ++ [ECall.departFixHeading fx h]),
    directFix := fun st fx => Except.ok (st ++ [ECall.directFix fx]),
    expediteDescent := fun st => Except.ok (st ++ [ECall.expediteDescent]),
    expediteClimb := fun st => Except.ok (st ++ [ECall.expediteClimb]),
    expectApproach := fun st ap => Except.ok (st ++ [ECall.expectApproach ap]),
    handoffControl := fun st => Except.ok (st ++ [ECall.handoffControl]),
    assignHeading := fun st a => Except.ok (st ++ [ECall.assignHeading a]),
    interceptLocalizer := fun st => Except.ok (st ++ [ECall.interceptLocalizer]),
    identify := fun st => Except.ok (st ++ [ECall.identify]),
    assignSpeed := fun st k aa => Except.ok (st ++ [ECall.assignSpeed k aa]),
    maintainSlowestPractical := fun st => Except.ok (st ++ [ECall.maintainSlowestPractical]),
    maintainMaximumForward := fun st => Except.ok (st ++ [ECall.maintainMaximumForward]),
    saySpeed := fun st => Except.ok (st ++ [ECall.saySpeed]),
    changeTransponderMode := fun st m => Except.ok (st ++ [ECall.changeTransponderMode m]),
    changeSquawk := fun st sq => Except.ok (st ++ [ECall.changeSquawk sq]),
    sayHeading := fun st => Except.ok (st ++ [ECall.sayHeading]),
    sayAltitude := fun st => Except.ok (st ++ [ECall.sayAltitude]),
    contactTower := fun st => Except.ok (st ++ [ECall.contactTower]),
    deleteAircraft := fun st => st ++ [ECall.deleteAircraft],
    locate := loc,
    parseAltitudeRestriction := parseAR,
    parseSquawk := parseSq }

/-- The observational engine with failing parsers and an empty fix table. -/
def traceOpsD : EngineOps (List ECall) :=
  traceOps (fun _ => Except.error CmdErr.parseErr) (fun _ => Except.error CmdErr.parseErr)
    (fun _ => false)

/-- The observational engine with an altitude-restriction parser that
returns the range 50..70 (hundreds of feet). -/
def traceOpsP : EngineOps (List ECall) :=
  traceOps (fun _ => Except.ok ⟨50, 70⟩) (fun _ => Except.error CmdErr.parseErr)
    (fun _ => false)


/-! ## Theorems -/

theorem alookup_eq_none_of_not_mem {α : Type} (l : List (String × α)) (key : String)
    (h : key ∉ akeys l) : alookup l key = none := by
  induction l with
  | nil => rfl
  | cons p rest ih =>
      obtain ⟨k, v⟩ := p
      simp [akeys] at h
      simp [alookup, h.1, ih (by simp [akeys, h.2])]
      intro hk
      exact absurd hk.symm h.1

theorem aupdate_eq_of_not_mem {α : Type} (f : α → α) (key : String) (l : List (String × α))
    (h : key ∉ akeys l) : aupdate f key l = l := by
  induction l with
  | nil => rfl
  | cons p rest ih =>
      obtain ⟨k, v⟩ := p
      simp [akeys] at h
      have hk : ¬(k = key) := fun hk => h.1 hk.symm
      simp [aupdate, hk, ih (by simp [akeys, h.2])]

theorem alookup_aupdate_ne {α : Type} (f : α → α) (key key' : String) (l : List (String × α))
    (h : key ≠ key') : alookup (aupdate f key l) key' = alookup l key' := by
  induction l with
  | nil => rfl
  | cons p rest ih =>
      obtain ⟨k, v⟩ := p
      by_cases hk : k = key
      · subst hk
        simp [aupdate, alookup, h, ih]
      · simp [aupdate, hk, alookup, ih]

theorem simUpdate_run (s : UpdState) (e : Nat) (hp : s.paused = false)
    (ha : s.primaryActive = true) :
    simUpdate s e = { s with simTime := s.simTime + ((e + s.updateTimeSlop) / nsPerSecond) * nsPerSecond,
                             updateTimeSlop := (e + s.updateTimeSlop) % nsPerSecond } := by
  simp [simUpdate, hp, ha]

theorem simUpdate_foldl (es : List Nat) (s : UpdState) (hp : s.paused = false)
    (ha : s.primaryActive = true) (hs : s.updateTimeSlop < nsPerSecond) :
    (es.foldl simUpdate s).simTime
        = s.simTime + ((s.updateTimeSlop + es.sum) / nsPerSecond) * nsPerSecond
      ∧ (es.foldl simUpdate s).updateTimeSlop = (s.updateTimeSlop + es.sum) % nsPerSecond
      ∧ (es.foldl simUpdate s).updateTimeSlop < nsPerSecond
      ∧ (es.foldl simUpdate s).paused = false
      ∧ (es.foldl simUpdate s).primaryActive = true := by
  induction es generalizing s with
  | nil =>
      simp only [List.foldl_nil, List.sum_nil, Nat.add_zero]
      refine ⟨?_, ?_, hs, hp, ha⟩ <;> simp [nsPerSecond] at hs ⊢ <;> omega
  | cons e rest ih =>
      have hstep := simUpdate_run s e hp ha
      have hrec := ih { s with
          simTime := s.simTime + ((e + s.updateTimeSlop) / nsPerSecond) * nsPerSecond,
          updateTimeSlop := (e + s.updateTimeSlop) % nsPerSecond } (by simp [hp]) (by simp [ha])
          (Nat.mod_lt _ (by simp [nsPerSecond]))
      simp only [List.foldl_cons, hstep, List.sum_cons]
      refine ⟨?_, ?_, hrec.2.2.1, hrec.2.2.2⟩
      · rw [hrec.1]
        simp only [nsPerSecond] at *
        omega
      · rw [hrec.2.1]
        simp only [nsPerSecond] at *
        omega

/-- C1: while the sim is unpaused and the primary controller is an active
human, every `Sim.Update` call advances `State.SimTime` by whole seconds
only: the step count of a call is the whole-second floor of the scaled
elapsed time plus the previous call's slop, the sub-second remainder is
stored in `updateTimeSlop`, and across any sequence of calls the total
advance is the floor of the total scaled elapsed time, with the accumulated
slop always strictly below one second. -/
theorem claim_C1 (s : UpdState) (es : List Nat) (e : Nat)
    (hp : s.paused = false) (ha : s.primaryActive = true)
    (hs : s.updateTimeSlop < nsPerSecond) :
    ((simUpdate s e).simTime
        = s.simTime + ((e + s.updateTimeSlop) / nsPerSecond) * nsPerSecond
      ∧ (simUpdate s e).updateTimeSlop = (e + s.updateTimeSlop) % nsPerSecond)
    ∧ (es.foldl simUpdate s).simTime
        = s.simTime + ((s.updateTimeSlop + es.sum) / nsPerSecond) * nsPerSecond
    ∧ (es.foldl simUpdate s).updateTimeSlop = (s.updateTimeSlop + es.sum) % nsPerSecond
    ∧ (es.foldl simUpdate s).updateTimeSlop < nsPerSecond := by
  have hfold := simUpdate_foldl es s hp ha hs
  have hstep := simUpdate_run s e hp ha
  exact ⟨⟨by rw [hstep], by rw [hstep]⟩, hfold.1, hfold.2.1, hfold.2.2.1⟩

/-- Witness for C1: from a fresh state, calls whose scaled elapsed times are
2.5 s and 0.7 s advance the sim clock by exactly 3 s and leave 0.2 s of slop. -/
theorem claim_C1_witness :
    (List.foldl simUpdate ⟨0, 0, false, true⟩ [2500000000, 700000000]).simTime
        = 3 * nsPerSecond
      ∧ (List.foldl simUpdate ⟨0, 0, false, true⟩ [2500000000, 700000000]).updateTimeSlop
        = 200000000 := by
  have h := claim_C1 ⟨0, 0, false, true⟩ [2500000000, 700000000] 0 rfl rfl (by decide)
  exact ⟨h.2.1.trans (by norm_num [nsPerSecond]), h.2.2.1.trans (by norm_num [nsPerSecond])⟩

theorem pref_not_dig : ∀ c ∈ preferredAlphas, c ∉ cidDigits := by decide

theorem nonpref_not_dig : ∀ c ∈ nonPreferredAlphas, c ∉ cidDigits := by decide

theorem nonpref_not_pref : ∀ c ∈ nonPreferredAlphas, c ∉ preferredAlphas := by decide

theorem nodup_cidDigits : cidDigits.Nodup := by decide

theorem nodup_preferredAlphas : preferredAlphas.Nodup := by decide

theorem nodup_nonPreferredAlphas : nonPreferredAlphas.Nodup := by decide

theorem mkCID_inj {a b c a' b' c' : Char} :
    mkCID a b c = mkCID a' b' c' ↔ a = a' ∧ b = b' ∧ c = c' := by
  simp [mkCID, String.ext_iff]

/-- A triple product of duplicate-free character lists yields a
duplicate-free code list; this covers groups 0, 1, 2, 3, 4 and 6. -/
theorem nodup_cidProduct (l1 l2 l3 : List Char) (h1 : l1.Nodup) (h2 : l2.Nodup)
    (h3 : l3.Nodup) :
    (l1.flatMap fun a => l2.flatMap fun b => l3.map fun c => mkCID a b c).Nodup := by
  rw [List.nodup_flatMap]
  refine ⟨fun a _ => ?_, ?_⟩
  · rw [List.nodup_flatMap]
    refine ⟨fun b _ => h3.map_on fun x _ y _ h => (mkCID_inj.1 h).2.2, ?_⟩
    · refine h2.imp fun hne => ?_
      simp only [Function.onFun, List.disjoint_left, List.mem_map]
      rintro x ⟨u, _, rfl⟩ ⟨v, _, hv⟩
      have h := (mkCID_inj.1 hv).2.1
      first | exact hne h | exact hne h.symm
  · refine h1.imp fun hne => ?_
    simp only [Function.onFun, List.disjoint_left, List.mem_flatMap, List.mem_map]
    rintro x ⟨u, _, v, _, rfl⟩ ⟨u', _, v', _, hv⟩
    have h := (mkCID_inj.1 hv).1
    first | exact hne h | exact hne h.symm

theorem nodup_cidGroup5 : cidGroup5.Nodup := by
  rw [cidGroup5, List.nodup_flatMap]
  constructor
  · intro d _
    rw [List.nodup_append]
    refine ⟨?_, ?_, ?_⟩
    · rw [List.nodup_flatMap]
      refine ⟨fun a1 ha1 => ?_, ?_⟩
      · rw [List.nodup_append]
        refine ⟨nodup_nonPreferredAlphas.map_on fun x _ y _ h => (mkCID_inj.1 h).2.2,
                nodup_preferredAlphas.map_on fun x _ y _ h => (mkCID_inj.1 h).2.2, ?_⟩
        simp only [List.disjoint_left, List.mem_map]
        rintro x ⟨u, hu, rfl⟩ ⟨v, hv, hve⟩
        obtain ⟨-, -, rfl⟩ := mkCID_inj.1 hve.symm
        exact nonpref_not_pref u hu hv
      · refine nodup_nonPreferredAlphas.imp fun hne => ?_
        simp only [Function.onFun, List.disjoint_left, List.mem_append, List.mem_map]
        rintro x (⟨u, _, rfl⟩ | ⟨u, _, rfl⟩) h2 <;>
          · rcases h2 with ⟨v, _, hv⟩ | ⟨v, _, hv⟩ <;>
              · have h := (mkCID_inj.1 hv).2.1
                first | exact hne h | exact hne h.symm
    · rw [List.nodup_flatMap]
      refine ⟨fun a1 _ => nodup_nonPreferredAlphas.map_on fun x _ y _ h => (mkCID_inj.1 h).2.2, ?_⟩
      refine nodup_preferredAlphas.imp fun hne => ?_
      simp only [Function.onFun, List.disjoint_left, List.mem_map]
      rintro x ⟨u, _, rfl⟩ ⟨v, _, hv⟩
      have h := (mkCID_inj.1 hv).2.1
      first | exact hne h | exact hne h.symm
    · simp only [List.disjoint_left, List.mem_flatMap, List.mem_append, List.mem_map]
      rintro x ⟨a1, ha1, (⟨u, hu, rfl⟩ | ⟨u, hu, rfl⟩)⟩ ⟨a1', ha1', v, hv, hve⟩ <;>
        · have h := (mkCID_inj.1 hve).2.1
          exact nonpref_not_pref _ ha1 (h ▸ ha1')
  · refine nodup_cidDigits.imp fun hne => ?_
    simp only [Function.onFun, List.disjoint_left, List.mem_append, List.mem_flatMap,
      List.mem_map]
    rintro x (⟨a1, _, (⟨u, _, rfl⟩ | ⟨u, _, rfl⟩)⟩ | ⟨a1, _, u, _, rfl⟩) h2 <;>
      · rcases h2 with ⟨a1', _, (⟨v, _, hv⟩ | ⟨v, _, hv⟩)⟩ | ⟨a1', _, v, _, hv⟩ <;>
          · have h := (mkCID_inj.1 hv).1
            first | exact hne h | exact hne h.symm

theorem cidClass_dig {c : Char} (h : c ∈ cidDigits) : cidClass c = 0 := by
  simp [cidClass, h]

theorem cidClass_pref {c : Char} (h : c ∈ preferredAlphas) : cidClass c = 1 := by
  simp [cidClass, h, pref_not_dig c h]

theorem cidClass_nonpref {c : Char} (h : c ∈ nonPreferredAlphas) : cidClass c = 2 := by
  simp [cidClass, nonpref_not_dig c h, nonpref_not_pref c h]

theorem shape_mem0 : ∀ s ∈ cidGroup0, cidShape s = [0, 0, 0] := by
  intro s hs
  simp only [cidGroup0, List.mem_flatMap, List.mem_map] at hs
  obtain ⟨a, ha, b, hb, c, hc, rfl⟩ := hs
  simp [cidShape, mkCID, cidClass_dig ha, cidClass_dig hb, cidClass_dig hc]

theorem shape_mem1 : ∀ s ∈ cidGroup1, cidShape s = [0, 0, 1] := by
  intro s hs
  simp only [cidGroup1, List.mem_flatMap, List.mem_map] at hs
  obtain ⟨a, ha, b, hb, c, hc, rfl⟩ := hs
  simp [cidShape, mkCID, cidClass_dig ha, cidClass_dig hb, cidClass_pref hc]

theorem shape_mem2 : ∀ s ∈ cidGroup2, cidShape s = [0, 1, 1] := by
  intro s hs
  simp only [cidGroup2, List.mem_flatMap, List.mem_map] at hs
  obtain ⟨a, ha, b, hb, c, hc, rfl⟩ := hs
  simp [cidShape, mkCID, cidClass_dig ha, cidClass_pref hb, cidClass_pref hc]

theorem shape_mem3 : ∀ s ∈ cidGroup3, cidShape s = [0, 1, 0] := by
  intro s hs
  simp only [cidGroup3, List.mem_flatMap, List.mem_map] at hs
  obtain ⟨a, ha, b, hb, c, hc, rfl⟩ := hs
  simp [cidShape, mkCID, cidClass_dig ha, cidClass_pref hb, cidClass_dig hc]

theorem shape_mem4 : ∀ s ∈ cidGroup4, cidShape s = [0, 0, 2] := by
  intro s hs
  simp only [cidGroup4, List.mem_flatMap, List.mem_map] at hs
  obtain ⟨a, ha, b, hb, c, hc, rfl⟩ := hs
  simp [cidShape, mkCID, cidClass_dig ha, cidClass_dig hb, cidClass_nonpref hc]

theorem shape_mem5 :
    ∀ s ∈ cidGroup5, cidShape s = [0, 2, 2] ∨ cidShape s = [0, 2, 1] ∨ cidShape s = [0, 1, 2] := by
  intro s hs
  simp only [cidGroup5, List.mem_flatMap, List.mem_append, List.mem_map] at hs
  obtain ⟨d, hd, hrest⟩ := hs
  rcases hrest with ⟨a1, ha1, (⟨a2, ha2, rfl⟩ | ⟨a2, ha2, rfl⟩)⟩ | ⟨a1, ha1, a2, ha2, rfl⟩
  · exact Or.inl (by
      simp [cidShape, mkCID, cidClass_dig hd, cidClass_nonpref ha1, cidClass_nonpref ha2])
  · exact Or.inr (Or.inl (by
      simp [cidShape, mkCID, cidClass_dig hd, cidClass_nonpref ha1, cidClass_pref ha2]))
  · exact Or.inr (Or.inr (by
      simp [cidShape, mkCID, cidClass_dig hd, cidClass_pref ha1, cidClass_nonpref ha2]))

theorem shape_mem6 : ∀ s ∈ cidGroup6, cidShape s = [0, 2, 0] := by
  intro s hs
  simp only [cidGroup6, List.mem_flatMap, List.mem_map] at hs
  obtain ⟨a, ha, b, hb, c, hc, rfl⟩ := hs
  simp [cidShape, mkCID, cidClass_dig ha, cidClass_nonpref hb, cidClass_dig hc]

theorem shape_of_group :
    ∀ i (hi : i < generateCIDGroups.length), ∀ s ∈ generateCIDGroups.get ⟨i, hi⟩,
      cidShape s ∈ shapesOf i := by
  intro i hi
  have hi7 : i < 7 := hi
  interval_cases i
  · exact fun s hs => by simp [shapesOf, shape_mem0 s hs]
  · exact fun s hs => by simp [shapesOf, shape_mem1 s hs]
  · exact fun s hs => by simp [shapesOf, shape_mem2 s hs]
  · exact fun s hs => by simp [shapesOf, shape_mem3 s hs]
  · exact fun s hs => by simp [shapesOf, shape_mem4 s hs]
  · exact fun s hs => by
      rcases shape_mem5 s hs with h | h | h <;> simp [shapesOf, h]
  · exact fun s hs => by simp [shapesOf, shape_mem6 s hs]

theorem generateCIDGroups_pairG :
    ∀ i j (hi : i < generateCIDGroups.length) (hj : j < generateCIDGroups.length), i ≠ j →
      ∀ x ∈ generateCIDGroups.get ⟨i, hi⟩, x ∉ generateCIDGroups.get ⟨j, hj⟩ := by
  intro i j hi hj hne x hx hx'
  have h1 := shape_of_group i hi x hx
  have h2 := shape_of_group j hj x hx'
  have hlen : generateCIDGroups.length = 7 := by rfl
  rw [hlen] at hi hj
  interval_cases i <;> interval_cases j <;>
    first
      | exact hne rfl
      | (simp only [shapesOf, List.mem_cons, List.not_mem_nil, or_false] at h1 h2
         casesm* _ ∨ _ <;> simp_all)

theorem generateCIDGroups_nodup :
    ∀ i (hi : i < generateCIDGroups.length), (generateCIDGroups.get ⟨i, hi⟩).Nodup := by
  intro i hi
  have hlen : generateCIDGroups.length = 7 := by rfl
  rw [hlen] at hi
  interval_cases i
  · exact nodup_cidProduct _ _ _ nodup_cidDigits nodup_cidDigits nodup_cidDigits
  · exact nodup_cidProduct _ _ _ nodup_cidDigits nodup_cidDigits nodup_preferredAlphas
  · exact nodup_cidProduct _ _ _ nodup_cidDigits nodup_preferredAlphas nodup_preferredAlphas
  · exact nodup_cidProduct _ _ _ nodup_cidDigits nodup_preferredAlphas nodup_cidDigits
  · exact nodup_cidProduct _ _ _ nodup_cidDigits nodup_cidDigits nodup_nonPreferredAlphas
  · exact nodup_cidGroup5
  · exact nodup_cidProduct _ _ _ nodup_cidDigits nodup_nonPreferredAlphas nodup_cidDigits

theorem cidGroupMap_lt : ∀ cid i, cidGroupMap cid = some i → i < 7 := by
  intro cid i h
  unfold cidGroupMap at h
  split_ifs at h <;> simp only [Option.some.injEq] at h <;> omega

theorem cidInv_init : CIDInv newCIDAllocator := by
  refine ⟨rfl, ?_, List.nodup_nil, generateCIDGroups_nodup, generateCIDGroups_pairG, ?_, ?_⟩
  · intro i hi h
    exact absurd h (by simp [newCIDAllocator])
  · intro x hx
    exact absurd hx (List.not_mem_nil x)
  · intro cid i h
    exact cidGroupMap_lt cid i h

theorem allocate_spec :
    ∀ (c : CIDAllocator) (n : Nat), CIDInv c →
      CIDInv (allocate c n).2
      ∧ (allocate c n).2.cidGroup = c.cidGroup
      ∧ (∀ cid, (allocate c n).1 = some cid →
            cid ∉ c.allocated ∧ (allocate c n).2.allocated = cid :: c.allocated)
      ∧ ((allocate c n).1 = none →
            (∀ g ∈ c.groups, g = []) ∧ (allocate c n).2.allocated = c.allocated
              ∧ (allocate c n).2.groups = c.groups) := by
  intro c n
  induction c, n using allocate.induct with
  | case1 c n h g hg ih =>
      intro hc
      have hc' : CIDInv { c with groupIndex := c.groupIndex + 1 } := by
        refine ⟨hc.len7, ?_, hc.nodupA, hc.nodupG, hc.pairG, hc.disjAG, hc.idxBound⟩
        intro i hi hlt
        rcases Nat.lt_succ_iff_lt_or_eq.1 hlt with hlt' | rfl
        · exact hc.prefixEmpty i hi hlt'
        · exact List.length_eq_zero.1 hg
      have hstep : allocate c n = allocate { c with groupIndex := c.groupIndex + 1 } n := by
        rw [allocate]
        simp only [dif_pos h, dif_pos hg]
      rw [hstep]
      exact ih hc'
  | case2 c n h g hg =>
      intro hc
      set cid := g.get ⟨n % g.length, Nat.mod_lt _ (Nat.pos_of_ne_zero hg)⟩ with hciddef
      have hstep : allocate c n =
          (some cid,
            { c with groups := c.groups.set c.groupIndex (g.erase cid),
                     allocated := cid :: c.allocated }) := by
        rw [allocate]
        simp only [dif_pos h, dif_neg hg]
      have hcidg : cid ∈ g := List.get_mem _ _ _
      have hcidna : cid ∉ c.allocated := fun hmem => hc.disjAG cid hmem c.groupIndex h hcidg
      rw [hstep]
      refine ⟨?_, rfl, ?_, by simp⟩
      · refine ⟨by simp [hc.len7], ?_, hc.nodupA.cons hcidna, ?_, ?_, ?_, ?_⟩
        · intro i hi hlt
          have hi' : i < c.groups.length := by simpa using hi
          have hne : c.groupIndex ≠ i := by
            intro hne
            subst hne
            have hgnil : g = [] := hc.prefixEmpty _ h hlt
            rw [hgnil] at hcidg
            exact absurd hcidg (List.not_mem_nil _)
          simp only [List.get_eq_getElem, List.getElem_set_ne hne]
          exact hc.prefixEmpty i hi' hlt
        · intro i hi
          have hi' : i < c.groups.length := by simpa using hi
          by_cases hie : c.groupIndex = i
          · subst hie
            simp only [List.get_eq_getElem, List.getElem_set_self]
            exact (hc.nodupG _ h).erase cid
          · simp only [List.get_eq_getElem, List.getElem_set_ne hie]
            exact hc.nodupG i hi'
        · intro i j hi hj hij x hx hx'
          have hi' : i < c.groups.length := by simpa using hi
          have hj' : j < c.groups.length := by simpa using hj
          by_cases hie : c.groupIndex = i
          · subst hie
            have hje : c.groupIndex ≠ j := hij
            simp only [List.get_eq_getElem, List.getElem_set_self,
              List.getElem_set_ne hje] at hx hx'
            exact hc.pairG _ j h hj' hij x (List.erase_subset _ _ hx) hx'
          · by_cases hje : c.groupIndex = j
            · subst hje
              simp only [List.get_eq_getElem, List.getElem_set_ne hie,
                List.getElem_set_self] at hx hx'
              exact hc.pairG i _ hi' h hij x hx (List.erase_subset _ _ hx')
            · simp only [List.get_eq_getElem, List.getElem_set_ne hie,
                List.getElem_set_ne hje] at hx hx'
              exact hc.pairG i j hi' hj' hij x hx hx'
        · intro x hx i hi hx'
          have hi' : i < c.groups.length := by simpa using hi
          rcases List.mem_cons.1 hx with rfl | hxa
          · by_cases hie : c.groupIndex = i
            · subst hie
              simp only [List.get_eq_getElem, List.getElem_set_self] at hx'
              rw [(hc.nodupG _ h).mem_erase_iff] at hx'
              exact hx'.1 rfl
            · simp only [List.get_eq_getElem, List.getElem_set_ne hie] at hx'
              exact hc.pairG _ i h hi' hie cid hcidg hx'
          · by_cases hie : c.groupIndex = i
            · subst hie
              simp only [List.get_eq_getElem, List.getElem_set_self] at hx'
              exact hc.disjAG x hxa _ h (List.erase_subset _ _ hx')
            · simp only [List.get_eq_getElem, List.getElem_set_ne hie] at hx'
              exact hc.disjAG x hxa i hi' hx'
        · intro cid' i hidx
          have := hc.idxBound cid' i hidx
          simpa using this
      · intro cid' hcid'
        simp only [Option.some.injEq] at hcid'
        subst hcid'
        exact ⟨hcidna, rfl⟩
  | case3 c n h =>
      intro hc
      have hstep : allocate c n = (none, c) := by
        rw [allocate]
        simp only [dif_neg h]
      rw [hstep]
      refine ⟨hc, rfl, by simp, ?_⟩
      intro _
      refine ⟨?_, rfl, rfl⟩
      intro g hg
      rcases List.mem_iff_get.1 hg with ⟨i, rfl⟩
      exact hc.prefixEmpty i.1 i.2 (by omega)

theorem release_not_mem (c : CIDAllocator) (cid : String) (h : cid ∉ c.allocated) :
    release c cid = c := by
  simp [release, h]

theorem release_eq (c : CIDAllocator) (cid : String) (idx : Nat)
    (hmem : cid ∈ c.allocated) (hidx : c.cidGroup cid = some idx) :
    release c cid
      = { c with allocated := c.allocated.erase cid,
                 groups := c.groups.set idx (cid :: c.groups.getD idx []),
                 groupIndex := if idx < c.groupIndex then idx else c.groupIndex } := by
  simp [release, hmem, hidx]

theorem release_eq_none (c : CIDAllocator) (cid : String)
    (hmem : cid ∈ c.allocated) (hidx : c.cidGroup cid = none) :
    release c cid = { c with allocated := c.allocated.erase cid } := by
  simp [release, hmem, hidx]

theorem release_spec (c : CIDAllocator) (cid : String) (hc : CIDInv c) :
    CIDInv (release c cid) ∧ (release c cid).cidGroup = c.cidGroup := by
  by_cases hmem : cid ∈ c.allocated
  · cases hidx : c.cidGroup cid with
    | none =>
        rw [release_eq_none c cid hmem hidx]
        refine ⟨⟨hc.len7, hc.prefixEmpty, hc.nodupA.erase cid, hc.nodupG, hc.pairG, ?_,
          hc.idxBound⟩, rfl⟩
        intro x hx i hi
        exact hc.disjAG x (List.erase_subset _ _ hx) i hi
    | some idx =>
        have hlt : idx < c.groups.length := hc.idxBound cid idx hidx
        rw [release_eq c cid idx hmem hidx]
        have hgetD : c.groups.getD idx [] = c.groups.get ⟨idx, hlt⟩ := by
          rw [List.get_eq_getElem]
          exact List.getD_eq_getElem _ _ hlt
        refine ⟨⟨by simp [hc.len7], ?_, hc.nodupA.erase cid, ?_, ?_, ?_, ?_⟩, rfl⟩
        · intro i hi hilt
          have hi' : i < c.groups.length := by simpa using hi
          have hgi : i < c.groupIndex := by
            by_cases hc' : idx < c.groupIndex <;> simp [hc'] at hilt <;> omega
          have hne : idx ≠ i := by
            intro hne
            subst hne
            by_cases hc' : idx < c.groupIndex
            · simp [hc'] at hilt
            · simp [hc'] at hilt
          simp only [List.get_eq_getElem, List.getElem_set_ne hne]
          exact hc.prefixEmpty i hi' hgi
        · intro i hi
          have hi' : i < c.groups.length := by simpa using hi
          by_cases hie : idx = i
          · subst hie
            simp only [List.get_eq_getElem, List.getElem_set_self]
            rw [hgetD]
            exact List.Nodup.cons (hc.disjAG cid hmem idx hlt) (hc.nodupG idx hlt)
          · simp only [List.get_eq_getElem, List.getElem_set_ne hie]
            exact hc.nodupG i hi'
        · intro i j hi hj hij x hx hx'
          have hi' : i < c.groups.length := by simpa using hi
          have hj' : j < c.groups.length := by simpa using hj
          by_cases hie : idx = i
          · subst hie
            have hje : idx ≠ j := hij
            simp only [List.get_eq_getElem, List.getElem_set_self,
              List.getElem_set_ne hje] at hx hx'
            rw [hgetD] at hx
            rcases List.mem_cons.1 hx with rfl | hxg
            · exact hc.disjAG x hmem j hj' hx'
            · exact hc.pairG idx j hlt hj' hij x hxg hx'
          · by_cases hje : idx = j
            · subst hje
              simp only [List.get_eq_getElem, List.getElem_set_ne hie,
                List.getElem_set_self] at hx hx'
              rw [hgetD] at hx'
              rcases List.mem_cons.1 hx' with heq | hxg
              · subst heq
                exact hc.disjAG x hmem i hi' hx
              · exact hc.pairG i idx hi' hlt hij x hx hxg
            · simp only [List.get_eq_getElem, List.getElem_set_ne hie,
                List.getElem_set_ne hje] at hx hx'
              exact hc.pairG i j hi' hj' hij x hx hx'
        · intro x hx i hi hx'
          have hi' : i < c.groups.length := by simpa using hi
          have hxne : x ≠ cid := ((hc.nodupA.mem_erase_iff).1 hx).1
          have hxa : x ∈ c.allocated := ((hc.nodupA.mem_erase_iff).1 hx).2
          by_cases hie : idx = i
          · subst hie
            simp only [List.get_eq_getElem, List.getElem_set_self] at hx'
            rw [hgetD] at hx'
            rcases List.mem_cons.1 hx' with rfl | hxg
            · exact hxne rfl
            · exact hc.disjAG x hxa idx hlt hxg
          · simp only [List.get_eq_getElem, List.getElem_set_ne hie] at hx'
            exact hc.disjAG x hxa i hi' hx'
        · intro cid' i hidx'
          have := hc.idxBound cid' i hidx'
          simpa using this
  · rw [release_not_mem c cid hmem]
    exact ⟨hc, rfl⟩

theorem cidReachable_inv : ∀ c, CIDReachable c → CIDInv c := by
  intro c h
  induction h with
  | init => exact cidInv_init
  | alloc c n _ ih => exact (allocate_spec c n ih).1
  | rel c cid _ ih => exact (release_spec c cid ih).1

/-- After releasing a code whose partition is at or before the current
partition pointer, an `Allocate` whose random draw selects the first element
returns the very same code. -/
theorem allocate_after_release (c : CIDAllocator) (cid : String) (idx : Nat)
    (hc : CIDInv c) (hmem : cid ∈ c.allocated) (hidx : c.cidGroup cid = some idx)
    (hle : idx ≤ c.groupIndex) :
    (allocate (release c cid) 0).1 = some cid := by
  have hlt : idx < c.groups.length := hc.idxBound cid idx hidx
  rw [release_eq c cid idx hmem hidx]
  have hgi : (if idx < c.groupIndex then idx else c.groupIndex) = idx := by
    split <;> omega
  rw [hgi, allocate]
  have hlen : idx < (c.groups.set idx (cid :: c.groups.getD idx [])).length := by
    simpa using hlt
  simp only [dif_pos hlen]
  simp [List.get_eq_getElem, List.getElem_set_self]

/-- C8: starting from `NewCIDAllocator`, in every state reachable by any
interleaving of `Allocate` and `Release` calls: `Allocate` never returns a
code currently held by another allocation; `Allocate` fails, allocating
nothing, only when all 7 priority partitions are empty; `Release` of an
allocated code returns it to its original partition and rewinds the
current-partition pointer when that partition is earlier than the one
currently being drawn from, so that a `Release` followed by an `Allocate`
can return the same code again. -/
theorem claim_C8 (c : CIDAllocator) (hr : CIDReachable c) :
    c.groups.length = 7
    ∧ (∀ n cid, (allocate c n).1 = some cid → cid ∉ c.allocated)
    ∧ (∀ n, (allocate c n).1 = none →
          (∀ g ∈ c.groups, g = []) ∧ (allocate c n).2.allocated = c.allocated)
    ∧ (∀ cid idx, cid ∈ c.allocated → c.cidGroup cid = some idx →
          cid ∈ (release c cid).groups.getD idx []
          ∧ (idx < c.groupIndex → (release c cid).groupIndex = idx)
          ∧ (idx ≤ c.groupIndex → (allocate (release c cid) 0).1 = some cid)) := by
  have hc := cidReachable_inv c hr
  refine ⟨hc.len7, ?_, ?_, ?_⟩
  · intro n cid hsome
    exact ((allocate_spec c n hc).2.2.1 cid hsome).1
  · intro n hnone
    exact ⟨((allocate_spec c n hc).2.2.2 hnone).1, ((allocate_spec c n hc).2.2.2 hnone).2.1⟩
  · intro cid idx hmem hidx
    have hlt : idx < c.groups.length := hc.idxBound cid idx hidx
    refine ⟨?_, ?_, fun hle => allocate_after_release c cid idx hc hmem hidx hle⟩
    · rw [release_eq c cid idx hmem hidx]
      have hlen : idx < (c.groups.set idx (cid :: c.groups.getD idx [])).length := by
        simpa using hlt
      rw [List.getD_eq_getElem _ _ hlen]
      simp [List.getElem_set_self]
    · intro hidxlt
      rw [release_eq c cid idx hmem hidx]
      simp [hidxlt]

/-- Witness for C8: the theorem applies to the freshly constructed allocator,
whose code space has the 7 priority partitions and no outstanding
allocation. -/
theorem claim_C8_witness :
    newCIDAllocator.groups.length = 7
    ∧ (∀ n cid, (allocate newCIDAllocator n).1 = some cid →
          cid ∉ newCIDAllocator.allocated) :=
  ⟨(claim_C8 newCIDAllocator CIDReachable.init).1,
   (claim_C8 newCIDAllocator CIDReachable.init).2.1⟩

/-- C10: `Release` of a code that is not currently allocated leaves the
allocator completely unchanged — the partition lists, the partition map, the
current-partition pointer and the allocated set — so releasing an
unallocated code or double-releasing can never duplicate a code in the free
pool. -/
theorem claim_C10 (c : CIDAllocator) (cid : String) (h : cid ∉ c.allocated) :
    release c cid = c :=
  release_not_mem c cid h

/-- Witness for C10: releasing a code on the fresh allocator, where nothing
is allocated, is a no-op. -/
theorem claim_C10_witness :
    "0N0" ∉ newCIDAllocator.allocated ∧ release newCIDAllocator "0N0" = newCIDAllocator :=
  ⟨by simp [newCIDAllocator], claim_C10 newCIDAllocator "0N0" (by simp [newCIDAllocator])⟩

theorem handoffLoop_append (l1 l2 : List (String × Handoff)) (s : SimHO) :
    handoffLoop s (l1 ++ l2) = handoffLoop (handoffLoop s l1) l2 := by
  induction l1 generalizing s with
  | nil => rfl
  | cons p rest ih =>
      obtain ⟨cs, ho⟩ := p
      simp [handoffLoop, ih]

theorem pointOutLoop_append (l1 l2 : List (String × PointOut)) (s : SimHO) :
    pointOutLoop s (l1 ++ l2) = pointOutLoop (pointOutLoop s l1) l2 := by
  induction l1 generalizing s with
  | nil => rfl
  | cons p rest ih =>
      obtain ⟨cs, po⟩ := p
      simp [pointOutLoop, ih]

theorem handoffStep_frame (s : SimHO) (cs0 : String) (ho0 : Handoff) :
    (handoffStep s cs0 ho0).simTime = s.simTime
    ∧ (handoffStep s cs0 ho0).prespawn = s.prespawn
    ∧ (handoffStep s cs0 ho0).humanControllers = s.humanControllers
    ∧ (∀ e ∈ s.events, e ∈ (handoffStep s cs0 ho0).events)
    ∧ (∀ cs, cs ≠ cs0 →
        alookup (handoffStep s cs0 ho0).aircraft cs = alookup s.aircraft cs
        ∧ (cs ∈ akeys (handoffStep s cs0 ho0).handoffs ↔ cs ∈ akeys s.handoffs)) := by
  unfold handoffStep
  split
  · refine ⟨rfl, rfl, rfl, fun e he => he, fun cs hne => ⟨rfl, ?_⟩⟩
    simp [akeys, hne]
  · split
    · split
      · refine ⟨rfl, rfl, rfl, fun e he => by simp [he], fun cs hne => ⟨?_, Iff.rfl⟩⟩
        exact alookup_aupdate_ne _ _ _ _ (fun h => hne h.symm)
      · exact ⟨rfl, rfl, rfl, fun e he => he, fun cs hne => ⟨rfl, Iff.rfl⟩⟩
    · exact ⟨rfl, rfl, rfl, fun e he => he, fun cs hne => ⟨rfl, Iff.rfl⟩⟩

theorem handoffLoop_frame (l : List (String × Handoff)) (s : SimHO) :
    (handoffLoop s l).simTime = s.simTime
    ∧ (handoffLoop s l).prespawn = s.prespawn
    ∧ (handoffLoop s l).humanControllers = s.humanControllers
    ∧ (∀ e ∈ s.events, e ∈ (handoffLoop s l).events)
    ∧ (∀ cs, cs ∉ l.map Prod.fst →
        alookup (handoffLoop s l).aircraft cs = alookup s.aircraft cs
        ∧ (cs ∈ akeys (handoffLoop s l).handoffs ↔ cs ∈ akeys s.handoffs)) := by
  induction l generalizing s with
  | nil => exact ⟨rfl, rfl, rfl, fun e he => he, fun cs _ => ⟨rfl, Iff.rfl⟩⟩
  | cons p rest ih =>
      obtain ⟨cs0, ho0⟩ := p
      have hstep := handoffStep_frame s cs0 ho0
      have hrec := ih (handoffStep s cs0 ho0)
      refine ⟨hrec.1.trans hstep.1, hrec.2.1.trans hstep.2.1, hrec.2.2.1.trans hstep.2.2.1,
        fun e he => hrec.2.2.2.1 e (hstep.2.2.2.1 e he), ?_⟩
      intro cs hcs
      simp only [List.map_cons, List.mem_cons, not_or] at hcs
      have h1 := hstep.2.2.2.2 cs hcs.1
      have h2 := (hrec.2.2.2.2 cs hcs.2)
      exact ⟨h2.1.trans h1.1, h2.2.trans h1.2⟩

theorem pointOutStep_frame (s : SimHO) (cs0 : String) (po0 : PointOut) :
    (pointOutStep s cs0 po0).simTime = s.simTime
    ∧ (pointOutStep s cs0 po0).humanControllers = s.humanControllers
    ∧ (pointOutStep s cs0 po0).aircraft = s.aircraft
    ∧ (∀ e ∈ s.events, e ∈ (pointOutStep s cs0 po0).events)
    ∧ (∀ cs, cs ≠ cs0 →
        (cs ∈ akeys (pointOutStep s cs0 po0).pointOuts ↔ cs ∈ akeys s.pointOuts)) := by
  unfold pointOutStep
  split
  · refine ⟨rfl, rfl, rfl, fun e he => he, fun cs hne => ?_⟩
    simp [akeys, hne]
  · split
    · exact ⟨rfl, rfl, rfl, fun e he => by simp [he], fun cs hne => Iff.rfl⟩
    · refine ⟨rfl, rfl, rfl, fun e he => he, fun cs hne => ?_⟩
      simp [akeys, hne]

theorem pointOutLoop_frame (l : List (String × PointOut)) (s : SimHO) :
    (pointOutLoop s l).simTime = s.simTime
    ∧ (pointOutLoop s l).humanControllers = s.humanControllers
    ∧ (pointOutLoop s l).aircraft = s.aircraft
    ∧ (∀ e ∈ s.events, e ∈ (pointOutLoop s l).events)
    ∧ (∀ cs, cs ∉ l.map Prod.fst →
        (cs ∈ akeys (pointOutLoop s l).pointOuts ↔ cs ∈ akeys s.pointOuts)) := by
  induction l generalizing s with
  | nil => exact ⟨rfl, rfl, rfl, fun e he => he, fun cs _ => Iff.rfl⟩
  | cons p rest ih =>
      obtain ⟨cs0, po0⟩ := p
      have hstep := pointOutStep_frame s cs0 po0
      have hrec := ih (pointOutStep s cs0 po0)
      refine ⟨hrec.1.trans hstep.1, hrec.2.1.trans hstep.2.1, hrec.2.2.1.trans hstep.2.2.1,
        fun e he => hrec.2.2.2.1 e (hstep.2.2.2.1 e he), ?_⟩
      intro cs hcs
      simp only [List.map_cons, List.mem_cons, not_or] at hcs
      exact (hrec.2.2.2.2 cs hcs.2).trans (hstep.2.2.2.2 cs hcs.1)

theorem alookup_aupdate_self {α : Type} (f : α → α) (key : String) (l : List (String × α))
    (v : α) (h : alookup l key = some v) : alookup (aupdate f key l) key = some (f v) := by
  induction l with
  | nil => simp [alookup] at h
  | cons p rest ih =>
      obtain ⟨k, w⟩ := p
      by_cases hk : k = key
      · subst hk
        simp [alookup] at h
        subst h
        simp [aupdate, alookup]
      · simp [alookup, hk] at h
        simp [aupdate, hk, alookup, ih h]

theorem nodup_keys_split {α : Type} (pre post : List (String × α)) (cs : String) (x : α)
    (h : ((pre ++ (cs, x) :: post).map Prod.fst).Nodup) :
    cs ∉ pre.map Prod.fst ∧ cs ∉ post.map Prod.fst := by
  rw [List.map_append, List.map_cons] at h
  constructor
  · intro hmem
    exact (List.disjoint_of_nodup_append h) hmem (List.mem_cons_self _ _)
  · exact (List.nodup_cons.1 (List.Nodup.of_append_right h)).1

/-- C2 (amended): for an outstanding handoff with deadline `D`, outside
prespawn: a tick while simulated time is not strictly past `D` leaves the
entry and the aircraft untouched, and the first tick strictly after `D`
resolves it — if the receiving position is not an active human the track is
reassigned to the handoff target, the pending-handoff field is cleared and
an `AcceptedHandoffEvent` is posted, and in all cases the `Handoffs` entry
is removed by that tick. -/
theorem claim_C2 (s : SimHO) (pre post : List (String × Handoff)) (cs : String)
    (ho : Handoff) (ac : AircraftHO)
    (hsplit : s.handoffs = pre ++ (cs, ho) :: post)
    (hnodup : (s.handoffs.map Prod.fst).Nodup)
    (hpre : s.prespawn = false)
    (hac : alookup s.aircraft cs = some ac) :
    (¬(ho.autoAcceptTime < s.simTime) →
        cs ∈ akeys (runHandoffs s).handoffs
        ∧ alookup (runHandoffs s).aircraft cs = some ac)
    ∧ (ho.autoAcceptTime < s.simTime →
        cs ∉ akeys (runHandoffs s).handoffs
        ∧ (ac.handoffTrackController ≠ "" →
            isActiveHumanController s ac.handoffTrackController = false →
            alookup (runHandoffs s).aircraft cs
              = some { ac with trackingController := ac.handoffTrackController,
                               handoffTrackController := "" }
            ∧ (⟨EventType.acceptedHandoff, ac.trackingController,
                  ac.handoffTrackController, cs⟩ : Event) ∈ (runHandoffs s).events)) := by
  obtain ⟨hcspre, hcspost⟩ := nodup_keys_split pre post cs ho (hsplit ▸ hnodup)
  unfold runHandoffs
  rw [hsplit, handoffLoop_append]
  set s0 : SimHO := { s with handoffs := [] } with hs0
  have hf1 := handoffLoop_frame pre s0
  set s1 := handoffLoop s0 pre with hs1
  have hT : s1.simTime = s.simTime := hf1.1
  have hP : s1.prespawn = false := hf1.2.1.trans hpre
  have hH : s1.humanControllers = s.humanControllers := hf1.2.2.1
  have hA : alookup s1.aircraft cs = some ac := (hf1.2.2.2.2 cs hcspre).1.trans hac
  have hK : cs ∉ akeys s1.handoffs := by
    intro hmem
    have := (hf1.2.2.2.2 cs hcspre).2.1 hmem
    simp [hs0, akeys] at this
  have hhuman : ∀ tcp, isActiveHumanController s1 tcp = isActiveHumanController s tcp := by
    intro tcp
    simp [isActiveHumanController, hH]
  constructor
  · -- not due: the entry is kept, nothing is resolved
    intro hnotdue
    have hstep : handoffStep s1 cs ho = { s1 with handoffs := s1.handoffs ++ [(cs, ho)] } := by
      unfold handoffStep
      rw [if_pos]
      constructor
      · rw [hT]
        exact hnotdue
      · simp [hP]
    rw [show handoffLoop s1 ((cs, ho) :: post) = handoffLoop (handoffStep s1 cs ho) post from rfl,
      hstep]
    have hf2 := handoffLoop_frame post { s1 with handoffs := s1.handoffs ++ [(cs, ho)] }
    refine ⟨?_, ?_⟩
    · rw [(hf2.2.2.2.2 cs hcspost).2]
      simp [akeys]
    · rw [(hf2.2.2.2.2 cs hcspost).1]
      exact hA
  · -- strictly past the deadline: the entry is removed; a non-human
    -- receiver triggers the automated accept
    intro hdue
    have hdue1 : ho.autoAcceptTime < s1.simTime := by rw [hT]; exact hdue
    by_cases hres : ac.handoffTrackController ≠ "" ∧
        ¬(isActiveHumanController s1 ac.handoffTrackController = true)
    · have hstep : handoffStep s1 cs ho =
          { s1 with
              events := s1.events ++
                [⟨EventType.acceptedHandoff, ac.trackingController,
                  ac.handoffTrackController, cs⟩],
              aircraft := aupdate (fun a =>
                  { a with trackingController := a.handoffTrackController,
                           handoffTrackController := "" }) cs s1.aircraft } := by
        unfold handoffStep
        rw [if_neg (by simp [hdue1]), hA]
        exact if_pos hres
      rw [show handoffLoop s1 ((cs, ho) :: post) = handoffLoop (handoffStep s1 cs ho) post from rfl,
        hstep]
      have hf2 := handoffLoop_frame post
        { s1 with
            events := s1.events ++
              [⟨EventType.acceptedHandoff, ac.trackingController,
                ac.handoffTrackController, cs⟩],
            aircraft := aupdate (fun a =>
                { a with trackingController := a.handoffTrackController,
                         handoffTrackController := "" }) cs s1.aircraft }
      refine ⟨?_, fun _ _ => ⟨?_, ?_⟩⟩
      · intro hmem
        exact hK ((hf2.2.2.2.2 cs hcspost).2.1 hmem)
      · rw [(hf2.2.2.2.2 cs hcspost).1]
        show alookup (aupdate _ cs s1.aircraft) cs = _
        exact alookup_aupdate_self _ cs s1.aircraft ac hA
      · refine hf2.2.2.2.1 _ ?_
        simp
    · -- receiver is an active human (or no pending handoff): entry dropped,
      -- nothing else happens
      have hstep : handoffStep s1 cs ho = s1 := by
        unfold handoffStep
        rw [if_neg (by simp [hdue1]), hA]
        exact if_neg hres
      rw [show handoffLoop s1 ((cs, ho) :: post) = handoffLoop (handoffStep s1 cs ho) post from rfl,
        hstep]
      have hf2 := handoffLoop_frame post s1
      refine ⟨?_, ?_⟩
      · intro hmem
        exact hK ((hf2.2.2.2.2 cs hcspost).2.1 hmem)
      · intro hpend hhum
        exact absurd ⟨hpend, by rw [hhuman]; simp [hhum]⟩ hres

/-- Witness for C2: a handoff due at time 99 with a virtual receiver is
resolved by the tick at time 100: the track moves to the handoff target,
the pending field is cleared, the event is posted and the entry is gone. -/
theorem claim_C2_witness :
    alookup (runHandoffs ⟨100, false, ["2P"], [("AAL1", ⟨"1C", "4V"⟩)],
        [("AAL1", ⟨99, "ZNY"⟩)], [], []⟩).aircraft "AAL1" = some ⟨"4V", ""⟩
    ∧ "AAL1" ∉ akeys (runHandoffs ⟨100, false, ["2P"], [("AAL1", ⟨"1C", "4V"⟩)],
        [("AAL1", ⟨99, "ZNY"⟩)], [], []⟩).handoffs
    ∧ (⟨EventType.acceptedHandoff, "1C", "4V", "AAL1"⟩ : Event)
        ∈ (runHandoffs ⟨100, false, ["2P"], [("AAL1", ⟨"1C", "4V"⟩)],
            [("AAL1", ⟨99, "ZNY"⟩)], [], []⟩).events := by
  have h := claim_C2 ⟨100, false, ["2P"], [("AAL1", ⟨"1C", "4V"⟩)],
      [("AAL1", ⟨99, "ZNY"⟩)], [], []⟩ [] [] "AAL1" ⟨99, "ZNY"⟩ ⟨"1C", "4V"⟩
      rfl (by decide) rfl (by decide)
  have h2 := h.2 (by decide)
  have h3 := h2.2 (by decide) (by decide)
  exact ⟨h3.1, h2.1, h3.2⟩

/-- Counterexample to C2 as stated: the first one-second tick at or after
the deadline can land exactly on the deadline (`SimTime = AutoAcceptTime`),
and `now.After(D)` is strict, so that tick does *not* resolve the handoff:
the entry survives the tick, the track is not reassigned and no event is
posted, contradicting "the first one-second tick at or after D resolves
it". -/
theorem claim_C2_counterexample :
    (runHandoffs ⟨100, false, ["2P"], [("AAL1", ⟨"1C", "4V"⟩)],
        [("AAL1", ⟨100, "ZNY"⟩)], [], []⟩).handoffs = [("AAL1", ⟨100, "ZNY"⟩)]
    ∧ alookup (runHandoffs ⟨100, false, ["2P"], [("AAL1", ⟨"1C", "4V"⟩)],
        [("AAL1", ⟨100, "ZNY"⟩)], [], []⟩).aircraft "AAL1" = some ⟨"1C", "4V"⟩
    ∧ (runHandoffs ⟨100, false, ["2P"], [("AAL1", ⟨"1C", "4V"⟩)],
        [("AAL1", ⟨100, "ZNY"⟩)], [], []⟩).events = [] := by
  decide

/-- C9: a point-out whose accept deadline has passed and whose recipient is
not an active human is auto-acknowledged by the tick: an
`AcknowledgedPointOutEvent` is posted whose `FromController` is the
original point-out's `ToController` and whose `ToController` is the
original's `FromController`, and the `PointOuts` entry is removed. -/
theorem claim_C9 (s : SimHO) (pre post : List (String × PointOut)) (cs : String)
    (po : PointOut)
    (hsplit : s.pointOuts = pre ++ (cs, po) :: post)
    (hnodup : (s.pointOuts.map Prod.fst).Nodup)
    (hdue : po.acceptTime < s.simTime)
    (hex : (alookup s.aircraft cs).isSome = true)
    (hnothuman : isActiveHumanController s po.toController = false) :
    (⟨EventType.acknowledgedPointOut, po.toController, po.fromController, cs⟩ : Event)
        ∈ (runPointOuts s).events
    ∧ cs ∉ akeys (runPointOuts s).pointOuts := by
  obtain ⟨hcspre, hcspost⟩ := nodup_keys_split pre post cs po (hsplit ▸ hnodup)
  unfold runPointOuts
  rw [hsplit, pointOutLoop_append]
  set s0 : SimHO := { s with pointOuts := [] } with hs0
  have hf1 := pointOutLoop_frame pre s0
  set s1 := pointOutLoop s0 pre with hs1
  have hT : s1.simTime = s.simTime := hf1.1
  have hH : s1.humanControllers = s.humanControllers := hf1.2.1
  have hA : s1.aircraft = s.aircraft := hf1.2.2.1
  have hK : cs ∉ akeys s1.pointOuts := by
    intro hmem
    have := (hf1.2.2.2.2 cs hcspre).1 hmem
    simp [hs0, akeys] at this
  have hstep : pointOutStep s1 cs po =
      { s1 with events := s1.events ++
          [⟨EventType.acknowledgedPointOut, po.toController, po.fromController, cs⟩] } := by
    unfold pointOutStep
    rw [if_neg (by rw [hT]; simp [hdue]), if_pos]
    constructor
    · rw [hA]
      exact hex
    · simp [isActiveHumanController, hH]
      simp [isActiveHumanController] at hnothuman
      exact hnothuman
  rw [show pointOutLoop s1 ((cs, po) :: post) = pointOutLoop (pointOutStep s1 cs po) post from rfl,
    hstep]
  have hf2 := pointOutLoop_frame post
    { s1 with events := s1.events ++
        [⟨EventType.acknowledgedPointOut, po.toController, po.fromController, cs⟩] }
  refine ⟨?_, ?_⟩
  · refine hf2.2.2.2.1 _ ?_
    simp
  · intro hmem
    exact hK ((hf2.2.2.2.2 cs hcspost).1 hmem)

/-- Witness for C9: a point-out from "1C" to virtual "4V", due at 99, is
acknowledged by the tick at 100 with from/to swapped, and removed. -/
theorem claim_C9_witness :
    (⟨EventType.acknowledgedPointOut, "4V", "1C", "AAL1"⟩ : Event)
        ∈ (runPointOuts ⟨100, false, ["1C"], [("AAL1", ⟨"1C", ""⟩)], [],
            [("AAL1", ⟨"1C", "4V", 99⟩)], []⟩).events
    ∧ "AAL1" ∉ akeys (runPointOuts ⟨100, false, ["1C"], [("AAL1", ⟨"1C", ""⟩)], [],
            [("AAL1", ⟨"1C", "4V", 99⟩)], []⟩).pointOuts :=
  claim_C9 ⟨100, false, ["1C"], [("AAL1", ⟨"1C", ""⟩)], [],
      [("AAL1", ⟨"1C", "4V", 99⟩)], []⟩ [] [] "AAL1" ⟨"1C", "4V", 99⟩
    rfl (by decide) (by decide) (by decide) (by decide)

theorem alookup_map_val {α β : Type} (f : String → α → β) (l : List (String × α))
    (cs : String) (v : α) (h : alookup l cs = some v) :
    alookup (l.map (fun p => (p.1, f p.1 p.2))) cs = some (f cs v) := by
  induction l with
  | nil => simp [alookup] at h
  | cons p rest ih =>
      obtain ⟨k, w⟩ := p
      by_cases hk : k = cs
      · subst hk
        simp [alookup] at h
        subst h
        simp [alookup]
      · simp only [alookup, List.map_cons, if_neg hk] at h ⊢
        exact ih h

/-- C5 (amended): `SignOff(tcp)` fails with the no-controller error iff
`tcp` is not a signed-on human controller; on success every aircraft tracked
by `tcp` is handed to the primary controller — so, provided `tcp` is not
itself the primary controller, zero aircraft remain tracked by `tcp` — and
launch control is released if `tcp` held it. -/
theorem claim_C5 (s : SimSO) (tcp : String) :
    ((∃ e, signOff s tcp = Except.error e) ↔ s.humanControllers.contains tcp = false)
    ∧ (∀ s', signOff s tcp = Except.ok s' →
        (tcp ≠ s.primaryController → trackedCount s' tcp = 0)
        ∧ (∀ cs ac, alookup s.aircraft cs = some ac → ac.trackingController = tcp →
            alookup s'.aircraft cs = some { ac with trackingController := s.primaryController })
        ∧ s'.launchController = (if tcp = s.launchController then "" else s.launchController)) := by
  constructor
  · constructor
    · rintro ⟨e, he⟩
      by_cases h : tcp ∈ s.humanControllers
      · simp [signOff, h] at he
      · simpa [List.elem_iff] using h
    · intro h
      refine ⟨SimErr.noController, ?_⟩
      have h' : tcp ∉ s.humanControllers := by
        simpa [List.elem_iff] using h
      simp [signOff, h']
  · intro s' hs'
    have hmem : tcp ∈ s.humanControllers := by
      by_cases h : tcp ∈ s.humanControllers
      · exact h
      · simp [signOff, h] at hs'
    simp only [signOff, List.elem_iff, hmem, not_true, if_false, Except.ok.injEq] at hs'
    subst hs'
    refine ⟨?_, ?_, rfl⟩
    · intro hne
      simp only [trackedCount, List.countP_eq_zero]
      intro p hp
      simp only [List.mem_map] at hp
      obtain ⟨q, hq, rfl⟩ := hp
      simp only [handleControllerDisconnect]
      split
      · simp only [decide_eq_true_eq]
        exact fun h => hne h.symm
      · next hcond =>
          simp only [decide_eq_true_eq]
          exact hcond
    · intro cs ac hlook htrack
      have hmapped := alookup_map_val
        (fun _ a => handleControllerDisconnect a tcp s.primaryController) s.aircraft cs ac hlook
      simp only [handleControllerDisconnect, htrack, if_pos rfl] at hmapped
      exact hmapped

/-- Witness for C5: signing "2P" off a two-position sim with primary "1C"
hands its aircraft to "1C", leaving zero tracked by "2P", and releases
launch control. -/
theorem claim_C5_witness :
    (signOff ⟨["1C", "2P"], [("AAL1", ⟨"2P"⟩), ("AAL2", ⟨"1C"⟩)], "1C", "2P"⟩ "2P"
        = Except.ok ⟨["1C"], [("AAL1", ⟨"1C"⟩), ("AAL2", ⟨"1C"⟩)], "1C", ""⟩)
    ∧ trackedCount ⟨["1C"], [("AAL1", ⟨"1C"⟩), ("AAL2", ⟨"1C"⟩)], "1C", ""⟩ "2P" = 0 := by
  refine ⟨rfl, ?_⟩
  have h := (claim_C5 ⟨["1C", "2P"], [("AAL1", ⟨"2P"⟩), ("AAL2", ⟨"1C"⟩)], "1C", "2P"⟩ "2P").2
    ⟨["1C"], [("AAL1", ⟨"1C"⟩), ("AAL2", ⟨"1C"⟩)], "1C", ""⟩ rfl
  exact h.1 (by decide)

/-- Counterexample to C5 as stated: when the signing-off controller is the
primary controller itself, its aircraft are "transferred" to the primary —
that is, to itself — so a tracked aircraft remains tracked by it after a
successful `SignOff`, contradicting "zero aircraft remain tracked by tcp
afterward". -/
theorem claim_C5_counterexample :
    signOff ⟨["1C"], [("AAL1", ⟨"1C"⟩)], "1C", ""⟩ "1C"
        = Except.ok ⟨[], [("AAL1", ⟨"1C"⟩)], "1C", ""⟩
    ∧ trackedCount ⟨[], [("AAL1", ⟨"1C"⟩)], "1C", ""⟩ "1C" = 1 :=
  ⟨rfl, rfl⟩

/-- C6: registering a session under a non-empty name that is already in
`simSessions` fails with the duplicate-name error and leaves the registry —
including the existing session under that name — unchanged, while the empty
name is exempt from the uniqueness check and the registration proceeds. -/
theorem claim_C6 {σ τ : Type} (reg : List (String × σ)) (name : String) (sess s0 : σ)
    (r : Except SimErr τ) :
    (name ≠ "" → alookup reg name = some s0 →
        simManagerAdd reg name sess r = (reg, Except.error SimErr.duplicateSimName)
        ∧ alookup (simManagerAdd reg name sess r).1 name = some s0)
    ∧ (alookup reg "" = some s0 →
        alookup (simManagerAdd reg "" sess r).1 "" = some sess) := by
  constructor
  · intro hname hlook
    have hcond : (alookup reg name).isSome ∧ name ≠ "" := by simp [hlook, hname]
    have heq : simManagerAdd reg name sess r
        = (reg, Except.error SimErr.duplicateSimName) := by
      simp [simManagerAdd, hcond]
    exact ⟨heq, by rw [heq]; exact hlook⟩
  · intro hlook
    have hcond : ¬((alookup reg "").isSome ∧ ¬("" : String) = "") := by simp
    have hins : alookup (ainsert reg "" sess) "" = some sess := by
      unfold ainsert
      rw [if_pos (by simp [hlook])]
      have := alookup_aupdate_self (fun _ => sess) "" reg s0 hlook
      simpa using this
    cases r <;> simp [simManagerAdd, hcond, hins]

/-- Witness for C6: a registry holding "sim1" rejects a second "sim1" and
keeps the original session, while an anonymous (empty-name) session may be
replaced. -/
theorem claim_C6_witness :
    (simManagerAdd [("sim1", 1)] "sim1" 2 (Except.ok 0)
        = ([("sim1", 1)], Except.error SimErr.duplicateSimName)
      ∧ alookup (simManagerAdd [("sim1", 1)] "sim1" 2 (Except.ok 0)).1 "sim1" = some 1)
    ∧ alookup (simManagerAdd [("", 1)] "" 2 (Except.ok 0)).1 "" = some 2 :=
  ⟨(claim_C6 [("sim1", 1)] "sim1" 2 1 (Except.ok 0)).1 (by decide) rfl,
   (claim_C6 [("", 1)] "" 2 1 (Except.ok 0)).2 rfl⟩

/-- C7 (amended): for a session in the registry, `SimShouldExit` returns
true exactly when the session has been idle at least 4 hours and at least
10 *other* sessions are idle beyond the threshold (the code counts all
idle sessions, itself included, against the bound 10). -/
theorem claim_C7 (pre post : List SimSession) (s : SimSession) :
    simShouldExit (pre ++ s :: post) s
      = (decide (simIdleLimit ≤ s.idleTime)
          && decide (10 ≤ (pre ++ post).countP (fun t => simIdleLimit ≤ t.idleTime))) := by
  unfold simShouldExit
  by_cases h : s.idleTime < simIdleLimit
  · have hnle : ¬(simIdleLimit ≤ s.idleTime) := by omega
    simp [h, hnle]
  · have hle : simIdleLimit ≤ s.idleTime := by omega
    rw [if_neg h]
    simp only [List.countP_append, List.countP_cons, hle, decide_eq_true_eq, if_pos,
      decide_True, Bool.true_and]
    rw [decide_eq_decide]
    omega

/-- Counterexample to C7 as stated: a session idle exactly 4 hours with
exactly 10 *other* sessions over the threshold (11 idle sessions in total,
the session itself included) is torn down — `SimShouldExit` returns true —
although the claim says it survives with 10 or fewer other idle sessions. -/
theorem claim_C7_counterexample :
    simShouldExit (⟨simIdleLimit⟩ :: List.replicate 10 ⟨simIdleLimit⟩) ⟨simIdleLimit⟩ = true
    ∧ (List.replicate 10 (⟨simIdleLimit⟩ : SimSession)).countP
        (fun t => simIdleLimit ≤ t.idleTime) = 10 := by
  decide

theorem runCmdList_split {σ : Type} (ops : EngineOps σ) :
    ∀ (pre : List (List Char)) (st st1 : σ) (t : List Char) (post : List (List Char))
      (e : CmdErr),
      execAll ops st pre = Except.ok st1 →
      execCmd ops st1 t = Except.error e →
      runCmdList ops st (pre ++ t :: post) = (st1, ⟨some e, joinTokens (t :: post)⟩) := by
  intro pre
  induction pre with
  | nil =>
      intro st st1 t post e hall herr
      simp only [execAll, Except.ok.injEq] at hall
      subst hall
      simp [runCmdList, herr]
  | cons q qs ih =>
      intro st st1 t post e hall herr
      simp only [execAll] at hall
      cases hq : execCmd ops st q with
      | error e' =>
          rw [hq] at hall
          simp at hall
      | ok st2 =>
          rw [hq] at hall
          simp only [List.cons_append, runCmdList, hq]
          exact ih st2 st1 t post e hall herr

theorem runCmdList_ok {σ : Type} (ops : EngineOps σ) :
    ∀ (l : List (List Char)) (st st' : σ),
      execAll ops st l = Except.ok st' →
      runCmdList ops st l = (st', ⟨none, ""⟩) := by
  intro l
  induction l with
  | nil =>
      intro st st' hall
      simp only [execAll, Except.ok.injEq] at hall
      subst hall
      rfl
  | cons q qs ih =>
      intro st st' hall
      simp only [execAll] at hall
      cases hq : execCmd ops st q with
      | error e' =>
          rw [hq] at hall
          simp at hall
      | ok st2 =>
          rw [hq] at hall
          simp only [runCmdList, hq]
          exact ih st2 st' hall

/-- C3: the tokens of a whitespace-delimited command string are executed in
order and processing stops at the first failing token: the result structure
reports the error and exactly the unconsumed suffix starting at the failing
token, while the effects of the earlier tokens remain; a fully successful
string reports no error and no remainder.  In particular
`RunAircraftCommands "H090 S250 ZZZ"` performs the heading and speed
assignments and reports `remainingUnexecutedInput = "ZZZ"` with a syntax
error. -/
theorem claim_C3 {σ : Type} (ops : EngineOps σ) (st : σ) (cmds : String) :
    (∀ (pre : List (List Char)) (t : List Char) (post : List (List Char)) (st1 : σ)
        (e : CmdErr),
      fieldsOf cmds = pre ++ t :: post →
      execAll ops st pre = Except.ok st1 →
      execCmd ops st1 t = Except.error e →
      runAircraftCommands ops st cmds = (st1, ⟨some e, joinTokens (t :: post)⟩))
    ∧ (∀ st', execAll ops st (fieldsOf cmds) = Except.ok st' →
        runAircraftCommands ops st cmds = (st', ⟨none, ""⟩))
    ∧ runAircraftCommands traceOpsD [] "H090 S250 ZZZ"
        = ([ECall.assignHeading ⟨90, TurnMethod.closest, 0, 0, false⟩,
            ECall.assignSpeed 250 false],
           ⟨some CmdErr.syntaxErr, "ZZZ"⟩) := by
  refine ⟨?_, ?_, ?_⟩
  · intro pre t post st1 e hfields hall herr
    unfold runAircraftCommands
    rw [hfields]
    exact runCmdList_split ops pre st st1 t post e hall herr
  · intro st' hall
    unfold runAircraftCommands
    exact runCmdList_ok ops (fieldsOf cmds) st st' hall
  · decide

/-- Witness for C3: on the string "H090 S250 ZZZ" over the observational
engine, the first two tokens succeed, the third is the failing token, and
the theorem reports the heading and speed applied with remainder "ZZZ". -/
theorem claim_C3_witness :
    runAircraftCommands traceOpsD [] "H090 S250 ZZZ"
      = ([ECall.assignHeading ⟨90, TurnMethod.closest, 0, 0, false⟩,
          ECall.assignSpeed 250 false],
         ⟨some CmdErr.syntaxErr, joinTokens [['Z', 'Z', 'Z']]⟩) :=
  (claim_C3 traceOpsD [] "H090 S250 ZZZ").1
    [['H', '0', '9', '0'], ['S', '2', '5', '0']] ['Z', 'Z', 'Z'] []
    [ECall.assignHeading ⟨90, TurnMethod.closest, 0, 0, false⟩,
     ECall.assignSpeed 250 false]
    CmdErr.syntaxErr (by decide) (by decide) (by decide)

theorem digit_ne (d : Char) (hd : d.isDigit = true) (x : Char) (hx : x.isDigit = false) :
    ¬(d = x) := fun h => by subst h; simp [hd] at hx

theorem atoi_digits (ds : List Char) (hne : ds ≠ []) (hall : ds.all Char.isDigit = true) :
    atoi ds = some ((digitsVal ds : Nat) : Int) := by
  cases ds with
  | nil => exact absurd rfl hne
  | cons c cr =>
      have hc : c.isDigit = true := by
        simp only [List.all_cons, Bool.and_eq_true] at hall
        exact hall.1
      have h1 : ¬(c = '+') := digit_ne c hc '+' (by decide)
      have h2 : ¬(c = '-') := digit_ne c hc '-' (by decide)
      simp [atoi, h1, h2, hall]

theorem atoi_bad_head (c : Char) (cr : List Char) (h1 : ¬(c = '+')) (h2 : ¬(c = '-'))
    (h3 : c.isDigit = false) : atoi (c :: cr) = none := by
  simp [atoi, h1, h2, h3]

theorem splitOnSlash_no (cs : List Char) (h : ∀ c ∈ cs, ¬(c = '/')) :
    splitOnSlash cs = [cs] := by
  induction cs with
  | nil => rfl
  | cons c cr ih =>
      simp only [splitOnSlash]
      rw [ih (fun x hx => h x (List.mem_cons_of_mem c hx))]
      simp [h c (List.mem_cons_self c cr)]

theorem splitOnSlash_two (xs ys : List Char) (hx : ∀ c ∈ xs, ¬(c = '/'))
    (hy : ∀ c ∈ ys, ¬(c = '/')) : splitOnSlash (xs ++ '/' :: ys) = [xs, ys] := by
  induction xs with
  | nil =>
      simp only [List.nil_append, splitOnSlash]
      rw [splitOnSlash_no ys hy]
      simp
  | cons c cr ih =>
      simp only [List.cons_append, splitOnSlash, List.append_eq]
      rw [ih (fun x h => hx x (List.mem_cons_of_mem c h))]
      simp [hx c (List.mem_cons_self c cr)]

theorem digits_no_slash (ds : List Char) (hall : ds.all Char.isDigit = true) :
    ∀ c ∈ ds, ¬(c = '/') := by
  intro c hc heq
  subst heq
  have := List.all_eq_true.1 hall _ hc
  exact absurd this (by decide)

theorem execCmd_C_digits {σ : Type} (ops : EngineOps σ) (st : σ) (ds : List Char)
    (hne : ds ≠ []) (hall : ds.all Char.isDigit = true) :
    execCmd ops st ('C' :: ds) = ops.assignAltitude st (100 * (digitsVal ds : Int)) false := by
  cases ds with
  | nil => exact absurd rfl hne
  | cons d dr =>
      have hd : d.isDigit = true := by
        simp only [List.all_cons, Bool.and_eq_true] at hall
        exact hall.1
      have hA := digit_ne d hd 'A' (by decide)
      have hV := digit_ne d hd 'V' (by decide)
      have hS := digit_ne d hd 'S' (by decide)
      have hCAC : ¬(('C' :: d :: dr) = ['C', 'A', 'C']) := by
        intro h
        simp only [List.cons.injEq] at h
        exact hA h.2.1
      have hCVS : ¬(('C' :: d :: dr) = ['C', 'V', 'S']) := by
        intro h
        simp only [List.cons.injEq] at h
        exact hV h.2.1
      have hCSI : ¬(('C' :: d :: dr).length > 4 ∧ ('C' :: d :: dr).take 3 = ['C', 'S', 'I']
          ∧ ¬(isAllNumbers (('C' :: d :: dr).drop 3) = true)) := by
        rintro ⟨-, h3, -⟩
        simp only [List.take, List.cons.injEq] at h3
        exact hS h3.2.1
      have hcross : ¬(('C' : Char) = 'C' ∧ ('C' :: d :: dr).length > 2
          ∧ ¬(isAllNumbers (d :: dr) = true)) := by
        rintro ⟨-, -, hnall⟩
        exact hnall hall
      simp [execCmd, isAllNumbers, hA, hV, hS, hall,
        atoi_digits (d :: dr) (by simp) hall]

theorem isDigit_range (d : Char) (hd : d.isDigit = true) :
    (('0' ≤ d) && (d ≤ '9')) = true := by
  simp only [Char.isDigit] at hd
  simpa using hd

theorem execCmd_D_digits {σ : Type} (ops : EngineOps σ) (st : σ) (ds : List Char)
    (hne : ds ≠ []) (hall : ds.all Char.isDigit = true) :
    execCmd ops st ('D' :: ds) = ops.assignAltitude st (100 * (digitsVal ds : Int)) false := by
  cases ds with
  | nil => exact absurd rfl hne
  | cons d dr =>
      have hd : d.isDigit = true := by
        simp only [List.all_cons, Bool.and_eq_true] at hall
        exact hall.1
      have hV := digit_ne d hd 'V' (by decide)
      have hsplit : splitOnSlash ('D' :: d :: dr) = [('D' :: d :: dr)] := by
        refine splitOnSlash_no _ ?_
        intro c hc
        rcases List.mem_cons.1 hc with rfl | hc'
        · decide
        · exact digits_no_slash (d :: dr) hall c hc'
      have hsd : secondIsDigit ('D' :: d :: dr) = true := by
        simp only [secondIsDigit]
        exact isDigit_range d hd
      simp [execCmd, hV, hsplit, hsd, atoi_digits (d :: dr) (by simp) hall]

theorem execCmd_T_alt {σ : Type} (ops : EngineOps σ) (st : σ) (c1 : Char)
    (hc1 : c1 = 'A' ∨ c1 = 'C' ∨ c1 = 'D') (ds : List Char)
    (hne : ds ≠ []) (hall : ds.all Char.isDigit = true) :
    execCmd ops st ('T' :: c1 :: ds) = ops.assignAltitude st (100 * (digitsVal ds : Int)) true := by
  cases ds with
  | nil => exact absurd rfl hne
  | cons d dr =>
      rcases hc1 with rfl | rfl | rfl
      · have hbad : ∀ cr, atoi ('A' :: cr) = none :=
          fun cr => atoi_bad_head _ cr (by decide) (by decide) (by decide)
        simp [execCmd, hbad, atoi_digits (d :: dr) (by simp) hall, List.dropLast]
      · have hbad : ∀ cr, atoi ('C' :: cr) = none :=
          fun cr => atoi_bad_head _ cr (by decide) (by decide) (by decide)
        simp [execCmd, hbad, atoi_digits (d :: dr) (by simp) hall, List.dropLast]
      · have hbad : ∀ cr, atoi ('D' :: cr) = none :=
          fun cr => atoi_bad_head _ cr (by decide) (by decide) (by decide)
        simp [execCmd, hbad, atoi_digits (d :: dr) (by simp) hall, List.dropLast]

theorem execCmd_H_digits {σ : Type} (ops : EngineOps σ) (st : σ) (ds : List Char)
    (hne : ds ≠ []) (hall : ds.all Char.isDigit = true) :
    execCmd ops st ('H' :: ds)
      = ops.assignHeading st ⟨(digitsVal ds : Int), TurnMethod.closest, 0, 0, false⟩ := by
  cases ds with
  | nil => exact absurd rfl hne
  | cons d dr =>
      simp [execCmd, atoi_digits (d :: dr) (by simp) hall]

theorem execCmd_S_digits {σ : Type} (ops : EngineOps σ) (st : σ) (ds : List Char)
    (hne : ds ≠ []) (hall : ds.all Char.isDigit = true) :
    execCmd ops st ('S' :: ds) = ops.assignSpeed st (digitsVal ds : Int) false := by
  cases ds with
  | nil => exact absurd rfl hne
  | cons d dr =>
      have hd : d.isDigit = true := by
        simp only [List.all_cons, Bool.and_eq_true] at hall
        exact hall.1
      have hM := digit_ne d hd 'M' (by decide)
      have hS := digit_ne d hd 'S' (by decide)
      have hQ := digit_ne d hd 'Q' (by decide)
      have hH := digit_ne d hd 'H' (by decide)
      have hA := digit_ne d hd 'A' (by decide)
      simp [execCmd, hM, hS, hQ, hH, hA, atoi_digits (d :: dr) (by simp) hall]

theorem execCmd_TS_digits {σ : Type} (ops : EngineOps σ) (st : σ) (ds : List Char)
    (hne : ds ≠ []) (hall : ds.all Char.isDigit = true) :
    execCmd ops st ('T' :: 'S' :: ds) = ops.assignSpeed st (digitsVal ds : Int) true := by
  cases ds with
  | nil => exact absurd rfl hne
  | cons d dr =>
      have hbad : ∀ cr, atoi ('S' :: cr) = none :=
        fun cr => atoi_bad_head _ cr (by decide) (by decide) (by decide)
      simp [execCmd, hbad, atoi_digits (d :: dr) (by simp) hall, List.dropLast]

theorem execCmd_crossfix {σ : Type} (ops : EngineOps σ) (st : σ) (acl : List Char)
    (ar : AltitudeRestriction) (hne : acl ≠ []) (hns : ∀ c ∈ acl, ¬(c = '/'))
    (hparse : ops.parseAltitudeRestriction acl = Except.ok ar) :
    execCmd ops st ('C' :: 'A' :: 'B' :: 'C' :: '/' :: 'A' :: acl)
      = ops.crossFixAt st ['A', 'B', 'C'] (some ⟨100 * ar.range0, 100 * ar.range1⟩) 0 := by
  have hsplit : splitOnSlash ('C' :: 'A' :: 'B' :: 'C' :: '/' :: 'A' :: acl)
      = [['C', 'A', 'B', 'C'], 'A' :: acl] := by
    have h2 := splitOnSlash_two ['C', 'A', 'B', 'C'] ('A' :: acl) (by decide) ?_
    · simpa using h2
    · intro c hc
      rcases List.mem_cons.1 hc with rfl | hc'
      · decide
      · exact hns c hc'
  have hnall : isAllNumbers ('A' :: 'B' :: 'C' :: '/' :: 'A' :: acl) = false := by
    simp [isAllNumbers]
  simp [execCmd, hsplit, hnall, procCrossClauses, hparse, hne]

/-- C4: every command token carrying a numeric altitude — the plain
altitude assignment `C<alt>`, the `D<alt>` form, the `TA`/`TC`/`TD` forms,
and the `A<alt>` clause of a cross-fix command — reaches the engine with
the parsed value multiplied by 100 (hundreds of feet to feet, also on the
altitude-restriction range), while numeric heading (`H<hdg>`) and speed
(`S<kts>`, `TS<kts>`) values are passed literally. -/
theorem claim_C4 {σ : Type} (ops : EngineOps σ) (st : σ) :
    (∀ ds, ds ≠ [] → ds.all Char.isDigit = true →
        execCmd ops st ('C' :: ds) = ops.assignAltitude st (100 * (digitsVal ds : Int)) false
        ∧ execCmd ops st ('D' :: ds) = ops.assignAltitude st (100 * (digitsVal ds : Int)) false
        ∧ (∀ c1, c1 = 'A' ∨ c1 = 'C' ∨ c1 = 'D' →
            execCmd ops st ('T' :: c1 :: ds)
              = ops.assignAltitude st (100 * (digitsVal ds : Int)) true)
        ∧ execCmd ops st ('H' :: ds)
            = ops.assignHeading st ⟨(digitsVal ds : Int), TurnMethod.closest, 0, 0, false⟩
        ∧ execCmd ops st ('S' :: ds) = ops.assignSpeed st (digitsVal ds : Int) false
        ∧ execCmd ops st ('T' :: 'S' :: ds) = ops.assignSpeed st (digitsVal ds : Int) true)
    ∧ (∀ acl ar, acl ≠ [] → (∀ c ∈ acl, ¬(c = '/')) →
        ops.parseAltitudeRestriction acl = Except.ok ar →
        execCmd ops st ('C' :: 'A' :: 'B' :: 'C' :: '/' :: 'A' :: acl)
          = ops.crossFixAt st ['A', 'B', 'C'] (some ⟨100 * ar.range0, 100 * ar.range1⟩) 0) :=
  ⟨fun ds hne hall =>
    ⟨execCmd_C_digits ops st ds hne hall, execCmd_D_digits ops st ds hne hall,
     fun c1 hc1 => execCmd_T_alt ops st c1 hc1 ds hne hall,
     execCmd_H_digits ops st ds hne hall, execCmd_S_digits ops st ds hne hall,
     execCmd_TS_digits ops st ds hne hall⟩,
   fun acl ar hne hns hparse => execCmd_crossfix ops st acl ar hne hns hparse⟩

/-- Witness for C4: "C50" and "TA50" reach the engine as 5000 ft, "H090"
as heading 90, "S250" as 250 kts, and "CABC/A50" as the range
5000..7000 ft. -/
theorem claim_C4_witness :
    execCmd traceOpsP [] ['C', '5', '0'] = Except.ok [ECall.assignAltitude 5000 false]
    ∧ execCmd traceOpsP [] ['T', 'A', '5', '0'] = Except.ok [ECall.assignAltitude 5000 true]
    ∧ execCmd traceOpsP [] ['H', '0', '9', '0']
        = Except.ok [ECall.assignHeading ⟨90, TurnMethod.closest, 0, 0, false⟩]
    ∧ execCmd traceOpsP [] ['S', '2', '5', '0'] = Except.ok [ECall.assignSpeed 250 false]
    ∧ execCmd traceOpsP [] ['C', 'A', 'B', 'C', '/', 'A', '5', '0']
        = Except.ok [ECall.crossFixAt ['A', 'B', 'C'] (some ⟨5000, 7000⟩) 0] := by
  have h := claim_C4 traceOpsP []
  refine ⟨?_, ?_, ?_, ?_, ?_⟩
  · rw [(h.1 ['5', '0'] (by decide) (by decide)).1]
    decide
  · rw [(h.1 ['5', '0'] (by decide) (by decide)).2.2.1 'A' (Or.inl rfl)]
    decide
  · rw [(h.1 ['0', '9', '0'] (by decide) (by decide)).2.2.2.1]
    decide
  · rw [(h.1 ['2', '5', '0'] (by decide) (by decide)).2.2.2.2.1]
    decide
  · rw [h.2 ['5', '0'] ⟨50, 70⟩ (by decide) (by decide) (by decide)]
    decide

end Vice
